import Mathlib

/-!
Verification of the badminton court-rotation engine.

This file gives a shallow embedding, in Lean, of the match-formation and
court-lifecycle engine of the scheduler (the React component in the repository;
all line references are to the engine source file).  Pure helpers become Lean
functions; the pieces of React state become fields of an explicit state record;
each user command becomes a state-to-state function.

Randomness: the source draws floats from a PRNG in three places
(weighted index picking, and the Fisher-Yates shuffle).  Every weight used is
1 / (playedCount + 1) > 0, so every index of the scanned list is reachable by
some draw, and the drawn index is always in range.  The embedding therefore
threads an explicit stream of choices (a list of naturals); a choice r selects
index r % length.  This covers exactly the set of outcomes the source can
produce, and all theorems below quantify over the whole stream.

The only loop of the source without a structural measure is the
reshuffle-and-retry loop of generic group formation; the embedding gives it an
explicit fuel parameter and returns an Option, where a result of none means the
source would still be looping after that many iterations.
-/

abbrev Name := String
abbrev Team := List Name
abbrev SigMap := Name → Option String
abbrev CountMap := Name → Option Nat

/-- One court: integer id, display name, optionally the group playing on it. -/
structure Court where
  id : Nat
  name : String
  team : Option Team := none
deriving DecidableEq

/-- The engine state: the React state variables of the component. -/
structure SchedState where
  participants : List Name
  teamQueue : List Team
  courts : List Court
  lastTeamSigByPlayer : SigMap
  priorityCarry : List Name
  restOnce : List Name
  playedCount : CountMap
  disabledCourtsOnce : List Nat

/-- Source: getCount — playedCount[name] ?? 0. -/
def getCount (pc : CountMap) (n : Name) : Nat := (pc n).getD 0

/-- Boolean lexicographic comparison of character lists (by code point). -/
def charListLe : List Char → List Char → Bool
  | [], _ => true
  | _ :: _, [] => false
  | a :: as, b :: bs =>
    if a.toNat < b.toNat then true
    else if b.toNat < a.toNat then false
    else charListLe as bs

/-- Total order on names modelling the localeCompare comparator of the source
(the source's collation is locale dependent; only totality of the order is ever
used, so the embedding fixes code-point order). -/
def nameLe (a b : Name) : Prop := charListLe a.data b.data = true

instance : DecidableRel nameLe := fun a b => by unfold nameLe; infer_instance

/-- Source: teamSignature — sort the four names and join with a bar. -/
def teamSignature (team : Team) : String :=
  String.intercalate "|" (team.insertionSort nameLe)

/-- Source: isExactRepeatTeamWithMap — a team of exactly 4 whose every member
has this team's signature as their last recorded signature. -/
def isExactRepeatTeamWithMap (team : Team) (m : SigMap) : Bool :=
  team.length == 4 && team.all (fun n => m n == some (teamSignature team))

/-- Source: markTeamAsStarted — record the team's signature for each member. -/
def markTeamAsStarted (team : Team) (m : SigMap) : SigMap :=
  fun n => if n ∈ team then some (teamSignature team) else m n

/-- Source: tryBreak — scan (group position × tail position) pairs
left-to-right, top-to-bottom, and perform the first swap that makes the group
not an exact repeat. -/
def tryBreak (m : SigMap) (group tail : Team) : Option (Team × Team) :=
  (List.range group.length).findSome? fun gi =>
    (List.range tail.length).findSome? fun tj =>
      let swapped := group.set gi (tail.getD tj "")
      if isExactRepeatTeamWithMap swapped m then none
      else some (swapped, tail.set tj (group.getD gi ""))

/-- Source: avgCount — arithmetic mean of the members' play counts.  The source
returns Infinity for an empty team; the embedding returns the junk value 0 of
rational division by zero.  Only 4-member teams are ever compared. -/
def avgCount (pc : CountMap) (team : Team) : ℚ :=
  ((team.map fun n => (getCount pc n : ℚ)).sum) / team.length

/-- The comparator used when sorting generic teams: mean of a is at most mean
of b.  Written with integer cross-multiplication (and the source's
Infinity-for-empty convention made explicit) so that it is a total, transitive,
kernel-evaluable order.  For the 4-member teams that are actually sorted this
agrees with comparing avgCount (avgLe_iff_avgCount below). -/
def avgLe (pc : CountMap) (a b : Team) : Prop :=
  if a.length = 0 then b.length = 0
  else if b.length = 0 then True
  else (a.map (getCount pc)).sum * b.length ≤ (b.map (getCount pc)).sum * a.length

instance (pc : CountMap) : DecidableRel (avgLe pc) := fun a b => by
  unfold avgLe; infer_instance

instance (pc : CountMap) : IsTotal Team (avgLe pc) := by
  constructor
  intro a b
  unfold avgLe
  by_cases ha : a.length = 0 <;> by_cases hb : b.length = 0 <;>
    simp [ha, hb, Nat.le_total]

instance (pc : CountMap) : IsTrans Team (avgLe pc) := by
  constructor
  intro a b c hab hbc
  unfold avgLe at hab hbc ⊢
  by_cases ha : a.length = 0 <;> by_cases hb : b.length = 0 <;>
    by_cases hc : c.length = 0 <;> simp [ha, hb, hc] at hab hbc ⊢
  have h1 : (a.map (getCount pc)).sum * b.length * c.length ≤
      (b.map (getCount pc)).sum * a.length * c.length :=
    Nat.mul_le_mul_right _ hab
  have h2 : (b.map (getCount pc)).sum * c.length * a.length ≤
      (c.map (getCount pc)).sum * b.length * a.length :=
    Nat.mul_le_mul_right _ hbc
  have h3 : (a.map (getCount pc)).sum * c.length * b.length ≤
      (c.map (getCount pc)).sum * a.length * b.length := by
    calc (a.map (getCount pc)).sum * c.length * b.length
        = (a.map (getCount pc)).sum * b.length * c.length := by ring
      _ ≤ (b.map (getCount pc)).sum * a.length * c.length := h1
      _ = (b.map (getCount pc)).sum * c.length * a.length := by ring
      _ ≤ (c.map (getCount pc)).sum * b.length * a.length := h2
      _ = (c.map (getCount pc)).sum * a.length * b.length := by ring
  have hbpos : 0 < b.length := Nat.pos_of_ne_zero hb
  exact Nat.le_of_mul_le_mul_right h3 hbpos

/-- Source: mergeRestOnceBack — of the pre-run waiting pool, keep exactly the
players who sat out this round (everyone else was consumed by formation). -/
def mergeRestOnceBack (participantsBefore restOnceList : List Name) : List Name :=
  participantsBefore.filter (fun p => decide (p ∈ restOnceList))

/-- Source: weightedPickIndex — a weight-proportional random index, always in
range; modelled as the oracle choice reduced mod the length. -/
def weightedPickIndex (items : List Name) (r : Nat) : Nat := r % items.length

/-- Source: weightedSampleWithoutReplacement — pick k items one at a time,
removing each chosen item from the pool before the next draw.  Returns
(picked, remaining pool) and the unconsumed choice stream. -/
def weightedSampleWithoutReplacement :
    List Name → Nat → List Nat → (List Name × List Name) × List Nat
  | pool, 0, rnd => ((([] : List Name), pool), rnd)
  | pool, k + 1, rnd =>
    if pool.isEmpty then ((([] : List Name), pool), rnd)
    else
      let idx := weightedPickIndex pool (rnd.headD 0)
      let x := pool.getD idx ""
      let ((picked, rest), rnd') :=
        weightedSampleWithoutReplacement (pool.eraseIdx idx) k rnd.tail
      ((x :: picked, rest), rnd')

/-- Helper for shuffle, with the length of the list as structural fuel. -/
def shuffleGo : Nat → List Name → List Nat → List Name × List Nat
  | 0, _, rnd => ([], rnd)
  | n + 1, pool, rnd =>
    if pool.isEmpty then ([], rnd)
    else
      let idx := rnd.headD 0 % pool.length
      let x := pool.getD idx ""
      let (rest, rnd') := shuffleGo n (pool.eraseIdx idx) rnd.tail
      (x :: rest, rnd')

/-- Source: shuffle — Fisher-Yates with an oracle-chosen index each step;
modelled as the oracle-chosen permutation built by repeatedly extracting a
chosen element (the reachable outcomes, all permutations of the input, are the
same). -/
def shuffle (pool : List Name) (rnd : List Nat) : List Name × List Nat :=
  shuffleGo pool.length pool rnd

/-- The waiting pool minus the rest-once set (source: eligibleParticipants). -/
def eligibleParticipants (s : SchedState) : List Name :=
  s.participants.filter (fun p => decide (p ∉ s.restOnce))

/-- The priority carry-over minus the rest-once set. -/
def eligiblePriorityCarry (s : SchedState) : List Name :=
  s.priorityCarry.filter (fun p => decide (p ∉ s.restOnce))

/-- Total number of eligible players (source: totalAvailable). -/
def totalAvailable (s : SchedState) : Nat :=
  (eligibleParticipants s).length + (eligiblePriorityCarry s).length

/-- Source idiom: broken = isExactRepeatTeam(team) ? tryBreak(team, tail) : null;
team = broken ? broken[0] : team; pool = broken ? broken[1] : tail. -/
def breakIfRepeat (m : SigMap) (team tail : Team) : Team × Team :=
  match (if isExactRepeatTeamWithMap team m then tryBreak m team tail else none) with
  | some (g, t) => (g, t)
  | none => (team, tail)

/-- Step 1 of formation: while at least 4 priority players remain, take the
first 4 as a team, break-swapping against the generic pool if the team is an
exact repeat.  Returns (teams, remaining priority list, remaining pool). -/
def priorityLoop (m : SigMap) : List Name → List Name → List Team × List Name × List Name
  | a :: b :: c :: d :: pl, pool =>
    let r := breakIfRepeat m [a, b, c, d] pool
    let rec1 := priorityLoop m pl r.2
    (r.1 :: rec1.1, rec1.2)
  | pl, pool => ([], pl, pool)

/-- Step 2 of formation: if 1-3 priority players remain and the pool can top
the team up to 4, draw the needed players by weighted sampling, break-swap a
repeat, and emit the team; otherwise leave the remainder alone. -/
def priorityTopUp (m : SigMap) (pt : List Team) (priorityList pool : List Name)
    (rnd : List Nat) : List Team × List Name × List Name × List Nat :=
  if priorityList.isEmpty then (pt, priorityList, pool, rnd)
  else
    let need := 4 - priorityList.length
    if need ≤ pool.length then
      let spl := weightedSampleWithoutReplacement pool need rnd
      let r := breakIfRepeat m (priorityList ++ spl.1.1) spl.1.2
      (pt ++ [r.1], [], r.2, spl.2)
    else (pt, priorityList, pool, rnd)

/-- Step 3 of formation: while the pool has at least 4 players, weighted-sample
a team of 4; on an exact repeat try a break-swap, and if none exists reshuffle
the whole pool and retry (when more than 4 remain) or accept the repeat (when
exactly 4 remain).  The fuel counts loop iterations; none models the source
still looping. -/
def genericLoop (m : SigMap) :
    Nat → List Name → List Nat → List Team → Option (List Team × List Name × List Nat)
  | fuel, pool, rnd, acc =>
    if 4 ≤ pool.length then
      match fuel with
      | 0 => none
      | fuel' + 1 =>
        let ((picked, rest), rnd') := weightedSampleWithoutReplacement pool 4 rnd
        if isExactRepeatTeamWithMap picked m then
          match tryBreak m picked rest with
          | some (g, t) => genericLoop m fuel' t rnd' (acc ++ [g])
          | none =>
            if 4 < pool.length then
              let (pool', rnd'') := shuffle pool rnd'
              genericLoop m fuel' pool' rnd'' acc
            else genericLoop m fuel' rest rnd' (acc ++ [picked])
        else genericLoop m fuel' rest rnd' (acc ++ [picked])
    else some (acc, pool, rnd)

/-- Steps 1-4 of formation: returns (priority-origin teams, generic teams,
new carry-over remainder, unconsumed choices), or none if the generic loop is
still running after the given fuel. -/
def formationPhase (m : SigMap) (fuel : Nat) (rnd : List Nat) (eligPC others : List Name) :
    Option (List Team × List Team × List Name × List Nat) :=
  let r1 := priorityLoop m eligPC others
  let r2 := priorityTopUp m r1.1 r1.2.1 r1.2.2 rnd
  match genericLoop m fuel r2.2.2.1 r2.2.2.2 [] with
  | none => none
  | some (ot, pool3, rnd3) => some (r2.1, ot, r2.2.1 ++ pool3, rnd3)

/-- One seating pass over the courts in order: each empty, enabled court takes
the front team of the incoming list (and that team's signature is recorded).
Returns (courts after, teams not seated, signature map after).  The source
performs this loop twice: over the pre-existing queue, then over the new
teams. -/
def seatQueue (dis : List Nat) : List Court → List Team → SigMap →
    List Court × List Team × SigMap
  | [], q, m => ([], q, m)
  | c :: cs, q, m =>
    if c.team = none ∧ c.id ∉ dis then
      match q with
      | [] =>
        let r := seatQueue dis cs [] m
        (c :: r.1, r.2.1, r.2.2)
      | t :: ts =>
        let r := seatQueue dis cs ts (markTeamAsStarted t m)
        ({ c with team := some t } :: r.1, r.2.1, r.2.2)
    else
      let r := seatQueue dis cs q m
      (c :: r.1, r.2.1, r.2.2)

/-- The ascending list of positions (indices into the court list) of courts
that are empty and enabled. -/
def emptyEnabledPos (dis : List Nat) : List Court → List Nat
  | [] => []
  | c :: cs =>
    if c.team = none ∧ c.id ∉ dis then 0 :: (emptyEnabledPos dis cs).map (· + 1)
    else (emptyEnabledPos dis cs).map (· + 1)

/-- The tail of handleMakeTeams once formation has produced teams: order the
new teams (priority first, then generic sorted by average play count), run the
two seating passes (pre-existing queue first), queue the unseated new teams
after the unseated queue entries, return resting players to the pool and clear
rest-once. -/
def handleMakeTeamsAssign (s : SchedState) (pt ot : List Team) (rest : List Name) :
    SchedState :=
  let sortedOther := ot.insertionSort (avgLe s.playedCount)
  let newTeamsInOrder := pt ++ sortedOther
  let r1 := seatQueue s.disabledCourtsOnce s.courts s.teamQueue s.lastTeamSigByPlayer
  let r2 := seatQueue s.disabledCourtsOnce r1.1 newTeamsInOrder r1.2.2
  { s with
    courts := r2.1
    teamQueue := r1.2.1 ++ r2.2.1
    participants := mergeRestOnceBack s.participants s.restOnce
    priorityCarry := rest
    restOnce := []
    lastTeamSigByPlayer := r2.2.2 }

/-- Source: handleMakeTeams — the full formation run: eligibility filter,
less-than-4 no-op (which still clears rest-once), formation, then ordering and
seating via handleMakeTeamsAssign. -/
def handleMakeTeams (fuel : Nat) (rnd : List Nat) (s : SchedState) : Option SchedState :=
  if (eligibleParticipants s).length + (eligiblePriorityCarry s).length < 4 then
    some { s with restOnce := [] }
  else
    match formationPhase s.lastTeamSigByPlayer fuel rnd (eligiblePriorityCarry s)
        ((eligibleParticipants s).filter (fun p => decide (p ∉ eligiblePriorityCarry s))) with
    | none => none
    | some (pt, ot, rest, _) => some (handleMakeTeamsAssign s pt ot rest)

/-- Add one to one player's stored count (missing counts as 0). -/
def bumpCount (pc : CountMap) (n : Name) : CountMap :=
  fun x => if x = n then some ((pc n).getD 0 + 1) else pc x

/-- Source: handleFinishCourt — count the finished team's matches, return its
members to the waiting pool, and seat the front queue team unless the queue is
empty or the court is disabled. -/
def handleFinishCourt (courtId : Nat) (s : SchedState) : SchedState :=
  match s.courts.findIdx? (fun c => c.id == courtId) with
  | none => s
  | some idx =>
    let c := s.courts.getD idx ⟨0, "", none⟩
    let finishedTeam := c.team.getD []
    let pc' := finishedTeam.foldl bumpCount s.playedCount
    if s.teamQueue ≠ [] ∧ courtId ∉ s.disabledCourtsOnce then
      let nextTeam := s.teamQueue.headD []
      { s with
        playedCount := pc'
        teamQueue := s.teamQueue.tail
        courts := s.courts.set idx { c with team := some nextTeam }
        lastTeamSigByPlayer := markTeamAsStarted nextTeam s.lastTeamSigByPlayer
        participants := s.participants ++ finishedTeam }
    else
      { s with
        playedCount := pc'
        courts := s.courts.set idx { c with team := none }
        participants := s.participants ++ finishedTeam }

/-- Source: applyCourtCount — clamp to at most 32 courts, append default
courts when growing, and when shrinking push displaced teams to the front of
the queue, renumber densely and prune the disabled set. -/
def applyCourtCount (nRaw : Nat) (s : SchedState) : SchedState :=
  let n := min 32 nRaw
  if n = s.courts.length then s
  else if s.courts.length < n then
    { s with
      courts := s.courts ++ (List.range' (s.courts.length + 1) (n - s.courts.length)).map
        (fun i => { id := i, name := "코트 " ++ toString i, team := none }) }
  else
    let survivors := s.courts.take n
    let displacedTeams := (s.courts.drop n).filterMap Court.team
    { s with
      courts := survivors.enum.map (fun p => { id := p.1 + 1, name := p.2.name, team := p.2.team })
      teamQueue := displacedTeams ++ s.teamQueue
      disabledCourtsOnce := s.disabledCourtsOnce.filter (fun i => decide (i ≤ n)) }

/-- Source: toggleDisableCourtOnce — toggling ON evicts an occupying team to
the front of the queue; toggling OFF immediately seats the front queue team if
the court is empty. -/
def toggleDisableCourtOnce (courtId : Nat) (s : SchedState) : SchedState :=
  if courtId ∉ s.disabledCourtsOnce then
    match s.courts.findIdx? (fun c => c.id == courtId) with
    | some idx =>
      let c := s.courts.getD idx ⟨0, "", none⟩
      match c.team with
      | some t =>
        if t ≠ [] then
          { s with
            courts := s.courts.set idx { c with team := none }
            teamQueue := t :: s.teamQueue
            disabledCourtsOnce := s.disabledCourtsOnce ++ [courtId] }
        else { s with disabledCourtsOnce := s.disabledCourtsOnce ++ [courtId] }
      | none => { s with disabledCourtsOnce := s.disabledCourtsOnce ++ [courtId] }
    | none => { s with disabledCourtsOnce := s.disabledCourtsOnce ++ [courtId] }
  else
    let disabled' := s.disabledCourtsOnce.filter (fun i => decide (i ≠ courtId))
    match s.courts.findIdx? (fun c => c.id == courtId) with
    | some idx =>
      let c := s.courts.getD idx ⟨0, "", none⟩
      match c.team, s.teamQueue with
      | none, t :: rest =>
        { s with
          courts := s.courts.set idx { c with team := some t }
          teamQueue := rest
          lastTeamSigByPlayer := markTeamAsStarted t s.lastTeamSigByPlayer
          disabledCourtsOnce := disabled' }
      | _, _ => { s with disabledCourtsOnce := disabled' }
    | none => { s with disabledCourtsOnce := disabled' }

/-- Source: getAllNamesSet — every name currently anywhere in the system. -/
def getAllNamesSet (s : SchedState) : List Name :=
  s.participants ++ s.teamQueue.flatten ++ (s.courts.filterMap Court.team).flatten ++ s.priorityCarry

/-- The lowercase key of a name (source: toLowerCase), written as a character
map so that it evaluates inside the kernel. -/
def lowerName (n : Name) : String := String.mk (n.data.map Char.toLower)

/-- Helper for uniquePreserveOrder, carrying the set of seen lowercase keys. -/
def uniquePreserveOrderGo : List String → List Name → List Name
  | _, [] => []
  | seen, n :: t =>
    if lowerName n ∈ seen then uniquePreserveOrderGo seen t
    else n :: uniquePreserveOrderGo (lowerName n :: seen) t

/-- Source: uniquePreserveOrder — drop all but the first spelling of each
case-insensitive name class, preserving order. -/
def uniquePreserveOrder (l : List Name) : List Name := uniquePreserveOrderGo [] l

/-- Source: ensureCountsFor — give a zero count to each listed name that has
no stored count yet (existing counts are kept). -/
def ensureCountsFor (names : List Name) (pc : CountMap) : CountMap :=
  names.foldl (fun acc n => if acc n = none then fun x => if x = n then some 0 else acc x else acc) pc

/-- The names actually admitted by add-new-only: the input deduplicated
case-insensitively, then filtered by exact-string absence from the system. -/
def newOnlyNames (list : List Name) (s : SchedState) : List Name :=
  (uniquePreserveOrder list).filter (fun n => decide (n ∉ getAllNamesSet s))

/-- Source: addNamesNewOnly — dedupe the input case-insensitively, drop names
already present anywhere in the system (exact-string set membership), and
append the rest to the waiting pool. -/
def addNamesNewOnly (list : List Name) (s : SchedState) : SchedState :=
  if (newOnlyNames list s).isEmpty then s
  else { s with
    participants := s.participants ++ newOnlyNames list s
    playedCount := ensureCountsFor (newOnlyNames list s) s.playedCount }

/-- Source: handleRestOnce — toggle a player's membership in the rest-once
set. -/
def handleRestOnce (name : Name) (s : SchedState) : SchedState :=
  if name ∈ s.restOnce then
    { s with restOnce := s.restOnce.filter (fun x => decide (x ≠ name)) }
  else { s with restOnce := s.restOnce ++ [name] }

/-! ## Generic list lemmas -/

theorem getD_cons_eraseIdx_perm {α : Type} (d : α) :
    ∀ (l : List α) (i : Nat), i < l.length → (l.getD i d :: l.eraseIdx i).Perm l
  | x :: xs, 0, _ => by simp [List.getD]
  | x :: xs, i + 1, h => by
    have hi : i < xs.length := by simpa using h
    have ih := getD_cons_eraseIdx_perm d xs i hi
    have h1 : (List.getD (x :: xs) (i + 1) d :: (x :: xs).eraseIdx (i + 1)).Perm
        (x :: (xs.getD i d :: xs.eraseIdx i)) := by
      simp only [List.getD_cons_succ, List.eraseIdx_cons_succ]
      exact List.Perm.swap x (xs.getD i d) _
    exact h1.trans (ih.cons x)

theorem getD_cons_set_perm {α : Type} (d : α) :
    ∀ (l : List α) (i : Nat) (a : α), i < l.length →
      (l.getD i d :: l.set i a).Perm (a :: l)
  | x :: xs, 0, a, _ => by
    simpa using List.Perm.swap a x xs
  | x :: xs, i + 1, a, h => by
    have hi : i < xs.length := by simpa using h
    have ih := getD_cons_set_perm d xs i a hi
    simp only [List.getD_cons_succ, List.set_cons_succ]
    have s1 : (xs.getD i d :: x :: xs.set i a).Perm (x :: (xs.getD i d :: xs.set i a)) :=
      List.Perm.swap x (xs.getD i d) _
    have s2 : (x :: (xs.getD i d :: xs.set i a)).Perm (x :: a :: xs) := ih.cons x
    exact (s1.trans s2).trans (List.Perm.swap a x xs)

/-! ## Specifications of the small randomized helpers -/

theorem tryBreak_spec {m : SigMap} {g t g' t' : Team}
    (h : tryBreak m g t = some (g', t')) :
    ∃ gi tj, gi < g.length ∧ tj < t.length ∧
      g' = g.set gi (t.getD tj "") ∧ t' = t.set tj (g.getD gi "") ∧
      isExactRepeatTeamWithMap g' m = false := by
  obtain ⟨gi, hgi, hrow⟩ := List.exists_of_findSome?_eq_some h
  obtain ⟨tj, htj, hcell⟩ := List.exists_of_findSome?_eq_some hrow
  simp only at hcell
  split at hcell
  · cases hcell
  · rename_i hrep
    have hp := Option.some.inj hcell
    have hg' : g' = g.set gi (t.getD tj "") := (congrArg Prod.fst hp).symm
    have ht' : t' = t.set tj (g.getD gi "") := (congrArg Prod.snd hp).symm
    refine ⟨gi, tj, by simpa using hgi, by simpa using htj, hg', ht', ?_⟩
    rw [hg']
    simpa using hrep

theorem tryBreak_perm {m : SigMap} {g t g' t' : Team}
    (h : tryBreak m g t = some (g', t')) : (g' ++ t').Perm (g ++ t) := by
  obtain ⟨gi, tj, hgi, htj, hg', ht', -⟩ := tryBreak_spec h
  subst hg' ht'
  set x := t.getD tj ""
  set y := g.getD gi ""
  have h1 : (y :: g.set gi x).Perm (x :: g) := getD_cons_set_perm "" g gi x hgi
  have h2 : (x :: t.set tj y).Perm (y :: t) := getD_cons_set_perm "" t tj y htj
  have s1 : (y :: x :: (g.set gi x ++ t.set tj y)).Perm
      ((y :: g.set gi x) ++ (x :: t.set tj y)) := by
    simpa using (@List.perm_middle _ x (g.set gi x) (t.set tj y)).symm.cons y
  have s2 : ((y :: g.set gi x) ++ (x :: t.set tj y)).Perm ((x :: g) ++ (y :: t)) :=
    h1.append h2
  have s3 : ((x :: g) ++ (y :: t)).Perm (x :: y :: (g ++ t)) := by
    simpa using (@List.perm_middle _ y g t).cons x
  have key : (y :: x :: (g.set gi x ++ t.set tj y)).Perm (y :: x :: (g ++ t)) :=
    ((s1.trans s2).trans s3).trans (List.Perm.swap y x _)
  exact (List.perm_cons _).mp ((List.perm_cons _).mp key)

theorem tryBreak_lengths {m : SigMap} {g t g' t' : Team}
    (h : tryBreak m g t = some (g', t')) : g'.length = g.length ∧ t'.length = t.length := by
  obtain ⟨gi, tj, -, -, hg', ht', -⟩ := tryBreak_spec h
  subst hg' ht'
  simp

theorem sample_perm :
    ∀ (k : Nat) (pool : List Name) (rnd : List Nat),
      ((weightedSampleWithoutReplacement pool k rnd).1.1 ++
        (weightedSampleWithoutReplacement pool k rnd).1.2).Perm pool
  | 0, pool, rnd => by simp [weightedSampleWithoutReplacement]
  | k + 1, pool, rnd => by
    by_cases hp : pool.isEmpty
    · simp [weightedSampleWithoutReplacement, hp]
    · have hlen : 0 < pool.length := by
        cases pool
        · simp at hp
        · simp
      have hidx : weightedPickIndex pool (rnd.headD 0) < pool.length :=
        Nat.mod_lt _ hlen
      have ih := sample_perm k (pool.eraseIdx (weightedPickIndex pool (rnd.headD 0))) rnd.tail
      simp only [weightedSampleWithoutReplacement, hp, Bool.false_eq_true, if_false]
      refine List.Perm.trans ?_ (getD_cons_eraseIdx_perm "" pool _ hidx)
      exact ih.cons _

theorem sample_length :
    ∀ (k : Nat) (pool : List Name) (rnd : List Nat),
      (weightedSampleWithoutReplacement pool k rnd).1.1.length = min k pool.length
  | 0, pool, rnd => by simp [weightedSampleWithoutReplacement]
  | k + 1, pool, rnd => by
    by_cases hp : pool.isEmpty
    · have : pool = [] := by simpa [List.isEmpty_iff] using hp
      simp [weightedSampleWithoutReplacement, hp, this]
    · have hlen : 0 < pool.length := by
        cases pool
        · simp at hp
        · simp
      have hidx : weightedPickIndex pool (rnd.headD 0) < pool.length :=
        Nat.mod_lt _ hlen
      have ih := sample_length k (pool.eraseIdx (weightedPickIndex pool (rnd.headD 0))) rnd.tail
      have herase : (pool.eraseIdx (weightedPickIndex pool (rnd.headD 0))).length =
          pool.length - 1 := by
        rw [List.length_eraseIdx]
        exact if_pos hidx
      rw [herase] at ih
      simp only [weightedSampleWithoutReplacement, hp, Bool.false_eq_true, if_false,
        List.length_cons, ih]
      omega

theorem shuffleGo_perm :
    ∀ (n : Nat) (pool : List Name) (rnd : List Nat), pool.length = n →
      (shuffleGo n pool rnd).1.Perm pool
  | 0, pool, rnd, h => by
    have : pool = [] := List.length_eq_zero.mp h
    simp [shuffleGo, this]
  | n + 1, pool, rnd, h => by
    have hp : ¬ pool.isEmpty := by
      cases pool
      · simp at h
      · simp
    have hlen : 0 < pool.length := by omega
    have hidx : rnd.headD 0 % pool.length < pool.length := Nat.mod_lt _ hlen
    have herase : (pool.eraseIdx (rnd.headD 0 % pool.length)).length = n := by
      rw [List.length_eraseIdx]
      simp only [hidx, if_pos]
      omega
    have ih := shuffleGo_perm n (pool.eraseIdx (rnd.headD 0 % pool.length)) rnd.tail herase
    simp only [shuffleGo, hp, Bool.false_eq_true, if_false]
    exact (ih.cons _).trans (getD_cons_eraseIdx_perm "" pool _ hidx)

theorem shuffle_perm (pool : List Name) (rnd : List Nat) :
    (shuffle pool rnd).1.Perm pool :=
  shuffleGo_perm pool.length pool rnd rfl

/-! ## Conservation through the formation phase -/

theorem breakIfRepeat_spec (m : SigMap) (team tail : Team) :
    ((breakIfRepeat m team tail).1 ++ (breakIfRepeat m team tail).2).Perm (team ++ tail) ∧
      (breakIfRepeat m team tail).1.length = team.length ∧
      (breakIfRepeat m team tail).2.length = tail.length := by
  unfold breakIfRepeat
  split
  · rename_i g t hsome
    have htb : tryBreak m team tail = some (g, t) := by
      split at hsome
      · exact hsome
      · cases hsome
    exact ⟨tryBreak_perm htb, (tryBreak_lengths htb).1, (tryBreak_lengths htb).2⟩
  · exact ⟨List.Perm.refl _, rfl, rfl⟩

theorem priorityLoop_spec (m : SigMap) :
    ∀ (pl pool : List Name),
      ((priorityLoop m pl pool).1.flatten ++ (priorityLoop m pl pool).2.1 ++
        (priorityLoop m pl pool).2.2).Perm (pl ++ pool) ∧
      (∀ g ∈ (priorityLoop m pl pool).1, g.length = 4) ∧
      (priorityLoop m pl pool).2.1.length < 4
  | a :: b :: c :: d :: pl, pool => by
    obtain ⟨hbp, hbl, -⟩ := breakIfRepeat_spec m [a, b, c, d] pool
    set r := breakIfRepeat m [a, b, c, d] pool with hr
    obtain ⟨ihp, ihall, ihlen⟩ := priorityLoop_spec m pl r.2
    rw [priorityLoop]
    refine ⟨?_, ?_, ihlen⟩
    · -- (r.1 :: rec.1).flatten ++ rec.2.1 ++ rec.2.2 ~ (a::b::c::d::pl) ++ pool
      have h1 : (r.1 ++ ((priorityLoop m pl r.2).1.flatten ++ (priorityLoop m pl r.2).2.1 ++
          (priorityLoop m pl r.2).2.2)).Perm (r.1 ++ (pl ++ r.2)) :=
        ihp.append_left r.1
      have h2 : (r.1 ++ (pl ++ r.2)).Perm (pl ++ (r.1 ++ r.2)) :=
        List.perm_append_comm_assoc r.1 pl r.2
      have h3 : (pl ++ (r.1 ++ r.2)).Perm (pl ++ ([a, b, c, d] ++ pool)) :=
        hbp.append_left pl
      have h4 : (pl ++ ([a, b, c, d] ++ pool)).Perm ([a, b, c, d] ++ pl ++ pool) := by
        have := List.perm_append_comm_assoc pl [a, b, c, d] pool
        simpa [List.append_assoc] using this
      have := ((h1.trans h2).trans h3).trans h4
      simpa [List.append_assoc] using this
    · intro g hg
      simp only [List.mem_cons] at hg
      rcases hg with hg | hg
      · rw [hg]
        simpa using hbl
      · exact ihall g hg
  | [], pool => by
    have he : priorityLoop m [] pool = ([], [], pool) := rfl
    rw [he]
    simpa using List.Perm.refl pool
  | [a], pool => by
    have he : priorityLoop m [a] pool = ([], [a], pool) := rfl
    rw [he]
    simpa using List.Perm.refl _
  | [a, b], pool => by
    have he : priorityLoop m [a, b] pool = ([], [a, b], pool) := rfl
    rw [he]
    simpa using List.Perm.refl _
  | [a, b, c], pool => by
    have he : priorityLoop m [a, b, c] pool = ([], [a, b, c], pool) := rfl
    rw [he]
    simpa using List.Perm.refl _

theorem priorityTopUp_spec (m : SigMap) (pt : List Team) (pl pool : List Name)
    (rnd : List Nat) (hpl4 : pl.length < 4) :
    ((priorityTopUp m pt pl pool rnd).1.flatten ++ (priorityTopUp m pt pl pool rnd).2.1 ++
        (priorityTopUp m pt pl pool rnd).2.2.1).Perm (pt.flatten ++ pl ++ pool) ∧
      (∀ g ∈ (priorityTopUp m pt pl pool rnd).1, g ∈ pt ∨ g.length = 4) := by
  unfold priorityTopUp
  by_cases hpl : pl.isEmpty
  · simp only [hpl, if_true]
    exact ⟨List.Perm.refl _, fun g hg => Or.inl hg⟩
  · simp only [hpl, Bool.false_eq_true, if_false]
    by_cases hneed : 4 - pl.length ≤ pool.length
    · simp only [hneed, if_true]
      set spl := weightedSampleWithoutReplacement pool (4 - pl.length) rnd with hspl
      have hperm : (spl.1.1 ++ spl.1.2).Perm pool := by
        rw [hspl]
        exact sample_perm (4 - pl.length) pool rnd
      have hpicked : spl.1.1.length = 4 - pl.length := by
        rw [hspl, sample_length]
        exact Nat.min_eq_left hneed
      obtain ⟨hbp, hbl, -⟩ := breakIfRepeat_spec m (pl ++ spl.1.1) spl.1.2
      set r := breakIfRepeat m (pl ++ spl.1.1) spl.1.2 with hrdef
      have hlen4 : r.1.length = 4 := by
        rw [hbl]
        have hpl' : 0 < pl.length := by
          cases pl
          · simp at hpl
          · simp
        simp only [List.length_append, hpicked]
        omega
      constructor
      · -- (pt ++ [r.1]).flatten ++ [] ++ r.2 ~ pt.flatten ++ pl ++ pool
        have h2 : (pt.flatten ++ (r.1 ++ r.2)).Perm
            (pt.flatten ++ ((pl ++ spl.1.1) ++ spl.1.2)) := hbp.append_left _
        have h3 : (pt.flatten ++ ((pl ++ spl.1.1) ++ spl.1.2)).Perm
            (pt.flatten ++ (pl ++ pool)) := by
          refine List.Perm.append_left _ ?_
          have h4 : ((pl ++ spl.1.1) ++ spl.1.2).Perm (pl ++ (spl.1.1 ++ spl.1.2)) := by
            simp [List.append_assoc]
          exact h4.trans (hperm.append_left pl)
        have := h2.trans h3
        simpa [List.append_assoc] using this
      · intro g hg
        simp only [List.mem_append, List.mem_singleton] at hg
        rcases hg with hg | hg
        · exact Or.inl hg
        · exact Or.inr (hg ▸ hlen4)
    · simp only [hneed, if_false]
      exact ⟨List.Perm.refl _, fun g hg => Or.inl hg⟩

theorem genericLoop_spec (m : SigMap) :
    ∀ (fuel : Nat) (pool : List Name) (rnd : List Nat) (acc : List Team)
      (ts : List Team) (poolF : List Name) (rndF : List Nat),
      genericLoop m fuel pool rnd acc = some (ts, poolF, rndF) →
      (ts.flatten ++ poolF).Perm (acc.flatten ++ pool) ∧
      (∀ g ∈ ts, g ∈ acc ∨ g.length = 4) ∧ poolF.length < 4 := by
  intro fuel pool rnd acc
  induction fuel, pool, rnd, acc using genericLoop.induct m with
  | case1 pool rnd acc hge =>
    intro ts poolF rndF h
    rw [genericLoop.eq_def] at h
    simp [hge] at h
  | case2 pool rnd acc hge fuel' picked rest rnd' hsam hrep g t htb ih =>
    intro ts poolF rndF h
    rw [genericLoop.eq_def] at h
    simp only [hge, if_pos, hsam, hrep, if_true, htb] at h
    obtain ⟨hp, hall, hlt⟩ := ih ts poolF rndF h
    have hpickedlen : picked.length = 4 := by
      have := sample_length 4 pool rnd
      rw [hsam] at this
      simpa [Nat.min_eq_left hge] using this
    have hglen : g.length = 4 := by
      have := (tryBreak_lengths htb).1
      rw [this, hpickedlen]
    refine ⟨?_, ?_, hlt⟩
    · have hsp : (picked ++ rest).Perm pool := by
        have := sample_perm 4 pool rnd
        rw [hsam] at this
        exact this
      have hgt : (g ++ t).Perm (picked ++ rest) := tryBreak_perm htb
      have h1 : ((acc ++ [g]).flatten ++ t).Perm (acc.flatten ++ (g ++ t)) := by
        simp [List.append_assoc]
      have h2 : (acc.flatten ++ (g ++ t)).Perm (acc.flatten ++ pool) :=
        (hgt.trans hsp).append_left _
      exact hp.trans (h1.trans h2)
    · intro g2 hg2
      rcases hall g2 hg2 with hin | hlen
      · simp only [List.mem_append, List.mem_singleton] at hin
        rcases hin with hin | hin
        · exact Or.inl hin
        · exact Or.inr (hin ▸ hglen)
      · exact Or.inr hlen
  | case3 pool rnd acc hge fuel' picked rest rnd' hsam hrep htb hgt4 pool' rnd'' hshuf ih =>
    intro ts poolF rndF h
    rw [genericLoop.eq_def] at h
    simp only [hge, if_pos, hsam, hrep, if_true, htb, hgt4] at h
    rw [hshuf] at h
    simp only at h
    obtain ⟨hp, hall, hlt⟩ := ih ts poolF rndF h
    refine ⟨?_, hall, hlt⟩
    have hperm : pool'.Perm pool := by
      have := shuffle_perm pool rnd'
      rw [hshuf] at this
      exact this
    exact hp.trans (hperm.append_left _)
  | case4 pool rnd acc hge fuel' picked rest rnd' hsam hrep htb hnle ih =>
    intro ts poolF rndF h
    rw [genericLoop.eq_def] at h
    simp only [hge, if_pos, hsam, hrep, if_true, htb, hnle, if_neg, if_false] at h
    obtain ⟨hp, hall, hlt⟩ := ih ts poolF rndF h
    have hpickedlen : picked.length = 4 := by
      have := sample_length 4 pool rnd
      rw [hsam] at this
      simpa [Nat.min_eq_left hge] using this
    refine ⟨?_, ?_, hlt⟩
    · have hsp : (picked ++ rest).Perm pool := by
        have := sample_perm 4 pool rnd
        rw [hsam] at this
        exact this
      have h1 : ((acc ++ [picked]).flatten ++ rest).Perm (acc.flatten ++ (picked ++ rest)) := by
        simp [List.append_assoc]
      exact hp.trans (h1.trans (hsp.append_left _))
    · intro g2 hg2
      rcases hall g2 hg2 with hin | hlen
      · simp only [List.mem_append, List.mem_singleton] at hin
        rcases hin with hin | hin
        · exact Or.inl hin
        · exact Or.inr (hin ▸ hpickedlen)
      · exact Or.inr hlen
  | case5 pool rnd acc hge fuel' picked rest rnd' hsam hnrep ih =>
    intro ts poolF rndF h
    rw [genericLoop.eq_def] at h
    simp only [hge, if_pos, hsam, hnrep, if_false, Bool.false_eq_true] at h
    obtain ⟨hp, hall, hlt⟩ := ih ts poolF rndF h
    have hpickedlen : picked.length = 4 := by
      have := sample_length 4 pool rnd
      rw [hsam] at this
      simpa [Nat.min_eq_left hge] using this
    refine ⟨?_, ?_, hlt⟩
    · have hsp : (picked ++ rest).Perm pool := by
        have := sample_perm 4 pool rnd
        rw [hsam] at this
        exact this
      have h1 : ((acc ++ [picked]).flatten ++ rest).Perm (acc.flatten ++ (picked ++ rest)) := by
        simp [List.append_assoc]
      exact hp.trans (h1.trans (hsp.append_left _))
    · intro g2 hg2
      rcases hall g2 hg2 with hin | hlen
      · simp only [List.mem_append, List.mem_singleton] at hin
        rcases hin with hin | hin
        · exact Or.inl hin
        · exact Or.inr (hin ▸ hpickedlen)
      · exact Or.inr hlen
  | case6 fuel pool rnd acc hlt =>
    intro ts poolF rndF h
    rw [genericLoop.eq_def] at h
    simp only [if_neg hlt, Option.some.injEq, Prod.mk.injEq] at h
    obtain ⟨h1, h2, h3⟩ := h
    subst h1 h2 h3
    exact ⟨List.Perm.refl _, fun g hg => Or.inl hg, by omega⟩

theorem perm_of_coe_eq {α : Type} {l₁ l₂ : List α} (h : (l₁ : Multiset α) = (l₂ : Multiset α)) :
    l₁.Perm l₂ := Multiset.coe_eq_coe.mp h

theorem formationPhase_spec (m : SigMap) (fuel : Nat) (rnd : List Nat)
    (eligPC others : List Name) (pt ot : List Team) (rest : List Name) (rndF : List Nat)
    (h : formationPhase m fuel rnd eligPC others = some (pt, ot, rest, rndF)) :
    ((pt ++ ot).flatten ++ rest).Perm (eligPC ++ others) ∧
    (∀ g ∈ pt ++ ot, g.length = 4) := by
  have P1 := priorityLoop_spec m eligPC others
  set r1 := priorityLoop m eligPC others with hr1
  have P2 := priorityTopUp_spec m r1.1 r1.2.1 r1.2.2 rnd P1.2.2
  set r2 := priorityTopUp m r1.1 r1.2.1 r1.2.2 rnd with hr2
  unfold formationPhase at h
  have h' : (match genericLoop m fuel r2.2.2.1 r2.2.2.2 [] with
      | none => none
      | some (ot', pool3, rnd3) =>
        some (r2.1, ot', r2.2.1 ++ pool3, rnd3)) = some (pt, ot, rest, rndF) := h
  clear h
  split at h'
  · cases h'
  · rename_i ot' pool3 rnd3 hgl
    have G := genericLoop_spec m fuel r2.2.2.1 r2.2.2.2 [] ot' pool3 rnd3 hgl
    simp only [Option.some.injEq, Prod.mk.injEq] at h'
    obtain ⟨hpt, hot, hrest, -⟩ := h'
    subst hpt hot hrest
    constructor
    · refine perm_of_coe_eq ?_
      have e1 : ((r1.1.flatten ++ r1.2.1 ++ r1.2.2 : List Name) : Multiset Name) =
          ((eligPC ++ others : List Name) : Multiset Name) := Multiset.coe_eq_coe.mpr P1.1
      have e2 : ((r2.1.flatten ++ r2.2.1 ++ r2.2.2.1 : List Name) : Multiset Name) =
          ((r1.1.flatten ++ r1.2.1 ++ r1.2.2 : List Name) : Multiset Name) :=
        Multiset.coe_eq_coe.mpr P2.1
      have e3 : ((ot'.flatten ++ pool3 : List Name) : Multiset Name) =
          (((([] : List Team).flatten ++ r2.2.2.1 : List Name)) : Multiset Name) :=
        Multiset.coe_eq_coe.mpr G.1
      simp only [List.flatten_append, List.flatten_nil, List.nil_append,
        ← Multiset.coe_add] at e1 e2 e3 ⊢
      calc (↑r2.1.flatten + ↑ot'.flatten + (↑r2.2.1 + ↑pool3) : Multiset Name)
          = ↑r2.1.flatten + ↑r2.2.1 + (↑ot'.flatten + ↑pool3) := by abel
        _ = ↑r2.1.flatten + ↑r2.2.1 + ↑r2.2.2.1 := by rw [e3]
        _ = ↑eligPC + ↑others := by rw [e2]; exact e1
    · intro g hg
      rcases List.mem_append.mp hg with hg | hg
      · rcases P2.2 g hg with hin | hlen
        · exact P1.2.1 g hin
        · exact hlen
      · rcases G.2.1 g hg with hin | hlen
        · simp at hin
        · exact hlen

/-! ## Claim C7: the immediate-repeat predicate -/

/-- C7.  For every candidate group and signature map, the repeat check returns
true exactly when the group has 4 members and every member's last recorded
signature equals the group's signature; in particular it is false when the size
differs from 4 or any member has no or a different recorded signature. -/
theorem claim_C7_immediate_repeat_iff (team : Team) (m : SigMap) :
    isExactRepeatTeamWithMap team m = true ↔
      (team.length = 4 ∧ ∀ n ∈ team, m n = some (teamSignature team)) := by
  simp [isExactRepeatTeamWithMap, List.all_eq_true]

/-! ## Claim C2: fewer than 4 eligible players -/

/-- C2.  With fewer than 4 eligible players the formation run is a no-op apart
from emptying the rest-once set: the returned state differs from the input
state only in the restOnce field, so waiting pool, priority carry-over, courts,
queue, signature map and played counts are all unchanged. -/
theorem claim_C2_lt4_noop (fuel : Nat) (rnd : List Nat) (s : SchedState)
    (h : totalAvailable s < 4) :
    handleMakeTeams fuel rnd s = some { s with restOnce := [] } := by
  have h' : (eligibleParticipants s).length + (eligiblePriorityCarry s).length < 4 := h
  simp [handleMakeTeams, h']

def c2State : SchedState :=
  { participants := ["Y", "Z"]
    teamQueue := []
    courts := [⟨1, "코트 1", none⟩, ⟨2, "코트 2", none⟩]
    lastTeamSigByPlayer := fun _ => none
    priorityCarry := ["X"]
    restOnce := ["Z"]
    playedCount := fun _ => none
    disabledCourtsOnce := [] }

theorem claim_C2_witness :
    totalAvailable c2State < 4 ∧
      handleMakeTeams 5 [] c2State = some { c2State with restOnce := [] } :=
  ⟨by decide, claim_C2_lt4_noop 5 [] c2State (by decide)⟩

/-! ## Claim C3: rest-once exclusion and return -/

/-- C3.  A waiting-pool player toggled into the rest-once set is absent from
both eligibility inputs of the next formation run, and after that run finishes
(whether formation happened or was a less-than-4 no-op) the player is back in
the waiting pool and the rest-once set is empty. -/
theorem claim_C3_rest_once (p : Name) (s : SchedState) (fuel : Nat) (rnd : List Nat)
    (s2 : SchedState) (hp : p ∈ s.participants) (hr : p ∉ s.restOnce)
    (hrun : handleMakeTeams fuel rnd (handleRestOnce p s) = some s2) :
    p ∉ eligibleParticipants (handleRestOnce p s) ∧
    p ∉ eligiblePriorityCarry (handleRestOnce p s) ∧
    p ∈ s2.participants ∧ s2.restOnce = [] := by
  have hs1 : handleRestOnce p s = { s with restOnce := s.restOnce ++ [p] } := by
    simp [handleRestOnce, hr]
  rw [hs1] at hrun ⊢
  have hpmem : p ∈ s.restOnce ++ [p] := by simp
  refine ⟨?_, ?_, ?_⟩
  · simp [eligibleParticipants, List.mem_filter, hpmem]
  · simp [eligiblePriorityCarry, List.mem_filter, hpmem]
  · by_cases hlt : (eligibleParticipants { s with restOnce := s.restOnce ++ [p] }).length +
        (eligiblePriorityCarry { s with restOnce := s.restOnce ++ [p] }).length < 4
    · simp only [handleMakeTeams, hlt, if_true, Option.some.injEq] at hrun
      subst hrun
      exact ⟨hp, rfl⟩
    · simp only [handleMakeTeams, hlt, if_false] at hrun
      split at hrun
      · cases hrun
      · rename_i pt ot rest rndF hform
        simp only [Option.some.injEq] at hrun
        subst hrun
        refine ⟨?_, rfl⟩
        simp only [handleMakeTeamsAssign, mergeRestOnceBack, List.mem_filter]
        exact ⟨hp, by simp [hpmem]⟩

def c3State : SchedState :=
  { participants := ["A", "B", "C", "D", "E"]
    teamQueue := []
    courts := [⟨1, "코트 1", none⟩, ⟨2, "코트 2", none⟩]
    lastTeamSigByPlayer := fun _ => none
    priorityCarry := []
    restOnce := []
    playedCount := fun _ => none
    disabledCourtsOnce := [] }

def c3Result : SchedState :=
  (handleMakeTeams 10 [] (handleRestOnce "E" c3State)).getD c3State

theorem claim_C3_witness :
    ("E" ∈ c3State.participants ∧ "E" ∉ c3State.restOnce) ∧
      ("E" ∉ eligibleParticipants (handleRestOnce "E" c3State) ∧
       "E" ∉ eligiblePriorityCarry (handleRestOnce "E" c3State) ∧
       "E" ∈ c3Result.participants ∧ c3Result.restOnce = []) :=
  ⟨⟨by decide, by decide⟩,
    claim_C3_rest_once "E" c3State 10 [] c3Result (by decide) (by decide) rfl⟩

/-! ## Claim C4: finishing a court -/

theorem foldl_bumpCount_not_mem (t : List Name) (pc : CountMap) (n : Name) (hn : n ∉ t) :
    t.foldl bumpCount pc n = pc n := by
  induction t generalizing pc with
  | nil => rfl
  | cons a t ih =>
    have hna : n ≠ a := fun h => hn (h ▸ List.mem_cons_self a t)
    have hnt : n ∉ t := fun h => hn (List.mem_cons_of_mem a h)
    simp only [List.foldl_cons, ih _ hnt, bumpCount, if_neg hna]

theorem foldl_bumpCount_mem (t : List Name) (pc : CountMap) (n : Name)
    (hnd : t.Nodup) (hn : n ∈ t) :
    t.foldl bumpCount pc n = some (getCount pc n + 1) := by
  induction t generalizing pc with
  | nil => cases hn
  | cons a t ih =>
    rcases List.mem_cons.mp hn with h | h
    · subst h
      have hnt : n ∉ t := (List.nodup_cons.mp hnd).1
      simp only [List.foldl_cons, foldl_bumpCount_not_mem t _ n hnt, bumpCount]
      simp [getCount]
    · have hna : n ≠ a := fun he => (List.nodup_cons.mp hnd).1 (he ▸ h)
      simp only [List.foldl_cons]
      rw [ih _ (List.nodup_cons.mp hnd).2 h]
      congr 1
      simp only [getCount, bumpCount, if_neg hna]

/-- C4.  Finishing an occupied court bumps every member's playedCount by
exactly one (leaving all other counts alone), appends the members to the end
of the waiting pool in court order, and then either seats the front queue team
on that court (when the queue is non-empty and the court is enabled), recording
its signature for its members, or leaves the court empty. -/
theorem claim_C4_finish_court (s : SchedState) (courtId idx : Nat) (c : Court) (t : Team)
    (hidx : s.courts.findIdx? (fun c => c.id == courtId) = some idx)
    (hc : s.courts[idx]? = some c) (ht : c.team = some t) (hnd : t.Nodup) :
    ((∀ n ∈ t, getCount (handleFinishCourt courtId s).playedCount n =
        getCount s.playedCount n + 1) ∧
     (∀ n, n ∉ t → (handleFinishCourt courtId s).playedCount n = s.playedCount n)) ∧
    (handleFinishCourt courtId s).participants = s.participants ++ t ∧
    (∀ q qs, s.teamQueue = q :: qs → courtId ∉ s.disabledCourtsOnce →
      (handleFinishCourt courtId s).courts = s.courts.set idx { c with team := some q } ∧
      (handleFinishCourt courtId s).teamQueue = qs ∧
      (handleFinishCourt courtId s).lastTeamSigByPlayer =
        markTeamAsStarted q s.lastTeamSigByPlayer) ∧
    (s.teamQueue = [] ∨ courtId ∈ s.disabledCourtsOnce →
      (handleFinishCourt courtId s).courts = s.courts.set idx { c with team := none } ∧
      (handleFinishCourt courtId s).teamQueue = s.teamQueue ∧
      (handleFinishCourt courtId s).lastTeamSigByPlayer = s.lastTeamSigByPlayer) := by
  have hgetD : s.courts.getD idx ⟨0, "", none⟩ = c := by
    rw [List.getD_eq_getElem?_getD, hc]
    rfl
  unfold handleFinishCourt
  rw [hidx]
  simp only [hgetD, ht, Option.getD_some]
  by_cases hcase : s.teamQueue ≠ [] ∧ courtId ∉ s.disabledCourtsOnce
  · rw [if_pos hcase]
    refine ⟨⟨?_, ?_⟩, rfl, ?_, ?_⟩
    · intro n hn
      simp only [getCount]
      rw [foldl_bumpCount_mem t s.playedCount n hnd hn]
      rfl
    · intro n hn
      exact foldl_bumpCount_not_mem t s.playedCount n hn
    · intro q qs hq hdis
      refine ⟨?_, ?_, ?_⟩ <;> simp [hq]
    · intro hor
      rcases hor with hq | hdis
      · exact absurd hq hcase.1
      · exact absurd hdis hcase.2
  · rw [if_neg hcase]
    refine ⟨⟨?_, ?_⟩, rfl, ?_, ?_⟩
    · intro n hn
      simp only [getCount]
      rw [foldl_bumpCount_mem t s.playedCount n hnd hn]
      rfl
    · intro n hn
      exact foldl_bumpCount_not_mem t s.playedCount n hn
    · intro q qs hq hdis
      exact absurd ⟨by simp [hq], hdis⟩ hcase
    · intro hor
      exact ⟨rfl, rfl, rfl⟩

def c4State : SchedState :=
  { participants := ["W"]
    teamQueue := [["Q1", "Q2", "Q3", "Q4"]]
    courts := [⟨1, "코트 1", some ["P1", "P2", "P3", "P4"]⟩, ⟨2, "코트 2", none⟩]
    lastTeamSigByPlayer := fun _ => none
    priorityCarry := []
    restOnce := []
    playedCount := fun n => if n = "P1" then some 3 else none
    disabledCourtsOnce := [] }

theorem claim_C4_witness :
    (c4State.courts.findIdx? (fun c => c.id == 1) = some 0 ∧
      c4State.courts[0]? = some ⟨1, "코트 1", some ["P1", "P2", "P3", "P4"]⟩ ∧
      (["P1", "P2", "P3", "P4"] : Team).Nodup) ∧
    (((∀ n ∈ (["P1", "P2", "P3", "P4"] : Team),
        getCount (handleFinishCourt 1 c4State).playedCount n =
          getCount c4State.playedCount n + 1) ∧
      (∀ n, n ∉ (["P1", "P2", "P3", "P4"] : Team) →
        (handleFinishCourt 1 c4State).playedCount n = c4State.playedCount n)) ∧
     (handleFinishCourt 1 c4State).participants = c4State.participants ++ ["P1", "P2", "P3", "P4"] ∧
     (∀ q qs, c4State.teamQueue = q :: qs → 1 ∉ c4State.disabledCourtsOnce →
       (handleFinishCourt 1 c4State).courts =
         c4State.courts.set 0 { (⟨1, "코트 1", some ["P1", "P2", "P3", "P4"]⟩ : Court) with
           team := some q } ∧
       (handleFinishCourt 1 c4State).teamQueue = qs ∧
       (handleFinishCourt 1 c4State).lastTeamSigByPlayer =
         markTeamAsStarted q c4State.lastTeamSigByPlayer) ∧
     (c4State.teamQueue = [] ∨ 1 ∈ c4State.disabledCourtsOnce →
       (handleFinishCourt 1 c4State).courts =
         c4State.courts.set 0 { (⟨1, "코트 1", some ["P1", "P2", "P3", "P4"]⟩ : Court) with
           team := none } ∧
       (handleFinishCourt 1 c4State).teamQueue = c4State.teamQueue ∧
       (handleFinishCourt 1 c4State).lastTeamSigByPlayer = c4State.lastTeamSigByPlayer)) :=
  ⟨⟨by decide, by decide, by decide⟩,
    claim_C4_finish_court c4State 1 0 ⟨1, "코트 1", some ["P1", "P2", "P3", "P4"]⟩
      ["P1", "P2", "P3", "P4"] (by decide) (by decide) rfl (by decide)⟩

/-! ## Claim C5: court-count resize -/

/-- C5.  Shrinking to n keeps the first n courts with their teams and names,
renumbered densely 1..n, pushes the teams of the removed courts to the front of
the queue in removed-court order, and prunes every disabled id above n; growing
appends empty courts with default names and ids up to n, all enabled (given
that the disabled set only mentions existing courts), and touches neither the
queue nor the disabled set. -/
theorem claim_C5_court_resize (s : SchedState) (n : Nat) (h32 : n ≤ 32)
    (hdis : ∀ d ∈ s.disabledCourtsOnce, d ≤ s.courts.length) :
    (n < s.courts.length →
      (applyCourtCount n s).courts.length = n ∧
      (∀ i, i < n → ∃ c, s.courts[i]? = some c ∧
        (applyCourtCount n s).courts[i]? =
          some { id := i + 1, name := c.name, team := c.team }) ∧
      (applyCourtCount n s).teamQueue =
        (s.courts.drop n).filterMap Court.team ++ s.teamQueue ∧
      (∀ d, d ∈ (applyCourtCount n s).disabledCourtsOnce ↔
        d ∈ s.disabledCourtsOnce ∧ d ≤ n)) ∧
    (s.courts.length < n →
      (applyCourtCount n s).courts.length = n ∧
      (∀ i, i < s.courts.length → (applyCourtCount n s).courts[i]? = s.courts[i]?) ∧
      (∀ i, s.courts.length ≤ i → i < n →
        (applyCourtCount n s).courts[i]? =
          some { id := i + 1, name := "코트 " ++ toString (i + 1), team := none } ∧
        (i + 1) ∉ (applyCourtCount n s).disabledCourtsOnce) ∧
      (applyCourtCount n s).teamQueue = s.teamQueue ∧
      (applyCourtCount n s).disabledCourtsOnce = s.disabledCourtsOnce) := by
  have hmin : min 32 n = n := Nat.min_eq_right h32
  constructor
  · intro hlt
    have hne : ¬ n = s.courts.length := by omega
    have hnge : ¬ s.courts.length < n := by omega
    unfold applyCourtCount
    rw [hmin, if_neg hne, if_neg hnge]
    refine ⟨?_, ?_, rfl, ?_⟩
    · simp only [List.length_map, List.enum_length, List.length_take]
      omega
    · intro i hi
      have hi' : i < s.courts.length := by omega
      refine ⟨s.courts[i], by simp [List.getElem?_eq_getElem hi'], ?_⟩
      simp [List.getElem?_map, List.getElem?_enum,
        List.getElem?_take_of_lt hi, List.getElem?_eq_getElem hi']
    · intro d
      simp [List.mem_filter]
  · intro hgt
    have hne : ¬ n = s.courts.length := by omega
    unfold applyCourtCount
    rw [hmin, if_neg hne, if_pos hgt]
    refine ⟨?_, ?_, ?_, rfl, rfl⟩
    · simp only [List.length_append, List.length_map, List.length_range']
      omega
    · intro i hi
      simp [List.getElem?_append_left hi]
    · intro i hige hilt
      have hrange : i - s.courts.length < n - s.courts.length := by omega
      have harith : s.courts.length + 1 + 1 * (i - s.courts.length) = i + 1 := by omega
      constructor
      · rw [List.getElem?_append_right (by simpa using hige)]
        have hr' : i - s.courts.length <
            ((List.range' (s.courts.length + 1) (n - s.courts.length)).map
              (fun i => ({ id := i, name := "코트 " ++ toString i, team := none } : Court))).length := by
          simpa using hrange
        rw [List.getElem?_eq_getElem hr']
        simp only [List.getElem_map, List.getElem_range', Option.some.injEq]
        rw [harith]
      · intro hmem
        have := hdis _ hmem
        omega

def c5State : SchedState :=
  { participants := []
    teamQueue := [["Q1", "Q2", "Q3", "Q4"]]
    courts := [⟨1, "코트 1", none⟩, ⟨2, "코트 2", some ["G1", "G2", "G3", "G4"]⟩,
      ⟨3, "코트 3", some ["H1", "H2", "H3", "H4"]⟩]
    lastTeamSigByPlayer := fun _ => none
    priorityCarry := []
    restOnce := []
    playedCount := fun _ => none
    disabledCourtsOnce := [3] }

theorem claim_C5_witness :
    (1 ≤ 32 ∧ ∀ d ∈ c5State.disabledCourtsOnce, d ≤ c5State.courts.length) ∧
    ((1 < c5State.courts.length →
      (applyCourtCount 1 c5State).courts.length = 1 ∧
      (∀ i, i < 1 → ∃ c, c5State.courts[i]? = some c ∧
        (applyCourtCount 1 c5State).courts[i]? =
          some { id := i + 1, name := c.name, team := c.team }) ∧
      (applyCourtCount 1 c5State).teamQueue =
        (c5State.courts.drop 1).filterMap Court.team ++ c5State.teamQueue ∧
      (∀ d, d ∈ (applyCourtCount 1 c5State).disabledCourtsOnce ↔
        d ∈ c5State.disabledCourtsOnce ∧ d ≤ 1)) ∧
     (c5State.courts.length < 1 →
      (applyCourtCount 1 c5State).courts.length = 1 ∧
      (∀ i, i < c5State.courts.length →
        (applyCourtCount 1 c5State).courts[i]? = c5State.courts[i]?) ∧
      (∀ i, c5State.courts.length ≤ i → i < 1 →
        (applyCourtCount 1 c5State).courts[i]? =
          some { id := i + 1, name := "코트 " ++ toString (i + 1), team := none } ∧
        (i + 1) ∉ (applyCourtCount 1 c5State).disabledCourtsOnce) ∧
      (applyCourtCount 1 c5State).teamQueue = c5State.teamQueue ∧
      (applyCourtCount 1 c5State).disabledCourtsOnce = c5State.disabledCourtsOnce)) :=
  ⟨⟨by decide, by decide⟩, claim_C5_court_resize c5State 1 (by decide) (by decide)⟩

/-! ## Claim C6: toggling a court's disabled flag -/

/-- C6.  Toggling disable ON for an occupied enabled court evicts its team to
the front of the queue, empties the court and marks it disabled; toggling
disable OFF for an empty disabled court seats the front queue team (recording
its signature) when the queue is non-empty, and otherwise leaves it
empty-enabled, the disabled mark being removed in both cases. -/
theorem claim_C6_toggle_disable (s : SchedState) (courtId idx : Nat) (c : Court)
    (hidx : s.courts.findIdx? (fun c => c.id == courtId) = some idx)
    (hc : s.courts[idx]? = some c) :
    (courtId ∉ s.disabledCourtsOnce → ∀ t, c.team = some t → t ≠ [] →
      (toggleDisableCourtOnce courtId s).teamQueue = t :: s.teamQueue ∧
      (toggleDisableCourtOnce courtId s).courts = s.courts.set idx { c with team := none } ∧
      courtId ∈ (toggleDisableCourtOnce courtId s).disabledCourtsOnce) ∧
    (courtId ∈ s.disabledCourtsOnce → c.team = none → ∀ q qs, s.teamQueue = q :: qs →
      (toggleDisableCourtOnce courtId s).courts = s.courts.set idx { c with team := some q } ∧
      (toggleDisableCourtOnce courtId s).teamQueue = qs ∧
      (toggleDisableCourtOnce courtId s).lastTeamSigByPlayer =
        markTeamAsStarted q s.lastTeamSigByPlayer ∧
      courtId ∉ (toggleDisableCourtOnce courtId s).disabledCourtsOnce) ∧
    (courtId ∈ s.disabledCourtsOnce → c.team = none → s.teamQueue = [] →
      (toggleDisableCourtOnce courtId s).courts = s.courts ∧
      (toggleDisableCourtOnce courtId s).teamQueue = [] ∧
      courtId ∉ (toggleDisableCourtOnce courtId s).disabledCourtsOnce) := by
  refine ⟨?_, ?_, ?_⟩
  · intro hnd t ht hne
    unfold toggleDisableCourtOnce
    rw [if_pos hnd, hidx]
    simp [hc, ht, hne]
  · intro hd ht q qs hq
    have hnd : ¬ courtId ∉ s.disabledCourtsOnce := fun h => h hd
    unfold toggleDisableCourtOnce
    rw [if_neg hnd, hidx]
    simp [hc, ht, hq, List.mem_filter]
  · intro hd ht hq
    have hnd : ¬ courtId ∉ s.disabledCourtsOnce := fun h => h hd
    unfold toggleDisableCourtOnce
    rw [if_neg hnd, hidx]
    simp [hc, ht, hq, List.mem_filter]

def c6State : SchedState :=
  { participants := []
    teamQueue := [["Q1", "Q2", "Q3", "Q4"]]
    courts := [⟨1, "코트 1", some ["P1", "P2", "P3", "P4"]⟩, ⟨2, "코트 2", none⟩]
    lastTeamSigByPlayer := fun _ => none
    priorityCarry := []
    restOnce := []
    playedCount := fun _ => none
    disabledCourtsOnce := [] }

theorem claim_C6_witness :
    (c6State.courts.findIdx? (fun c => c.id == 1) = some 0 ∧
      c6State.courts[0]? = some ⟨1, "코트 1", some ["P1", "P2", "P3", "P4"]⟩) ∧
    ((1 ∉ c6State.disabledCourtsOnce → ∀ t,
        (⟨1, "코트 1", some ["P1", "P2", "P3", "P4"]⟩ : Court).team = some t → t ≠ [] →
      (toggleDisableCourtOnce 1 c6State).teamQueue = t :: c6State.teamQueue ∧
      (toggleDisableCourtOnce 1 c6State).courts =
        c6State.courts.set 0 { (⟨1, "코트 1", some ["P1", "P2", "P3", "P4"]⟩ : Court) with
          team := none } ∧
      1 ∈ (toggleDisableCourtOnce 1 c6State).disabledCourtsOnce) ∧
     (1 ∈ c6State.disabledCourtsOnce →
        (⟨1, "코트 1", some ["P1", "P2", "P3", "P4"]⟩ : Court).team = none →
        ∀ q qs, c6State.teamQueue = q :: qs →
      (toggleDisableCourtOnce 1 c6State).courts =
        c6State.courts.set 0 { (⟨1, "코트 1", some ["P1", "P2", "P3", "P4"]⟩ : Court) with
          team := some q } ∧
      (toggleDisableCourtOnce 1 c6State).teamQueue = qs ∧
      (toggleDisableCourtOnce 1 c6State).lastTeamSigByPlayer =
        markTeamAsStarted q c6State.lastTeamSigByPlayer ∧
      1 ∉ (toggleDisableCourtOnce 1 c6State).disabledCourtsOnce) ∧
     (1 ∈ c6State.disabledCourtsOnce →
        (⟨1, "코트 1", some ["P1", "P2", "P3", "P4"]⟩ : Court).team = none →
        c6State.teamQueue = [] →
      (toggleDisableCourtOnce 1 c6State).courts = c6State.courts ∧
      (toggleDisableCourtOnce 1 c6State).teamQueue = [] ∧
      1 ∉ (toggleDisableCourtOnce 1 c6State).disabledCourtsOnce)) :=
  ⟨⟨by decide, by decide⟩,
    claim_C6_toggle_disable c6State 1 0 ⟨1, "코트 1", some ["P1", "P2", "P3", "P4"]⟩
      (by decide) (by decide)⟩

/-! ## Claim C9: add-new-only registration -/

theorem uniquePreserveOrderGo_sublist :
    ∀ (seen : List String) (l : List Name), (uniquePreserveOrderGo seen l).Sublist l
  | _, [] => List.Sublist.refl _
  | seen, n :: t => by
    rw [uniquePreserveOrderGo]
    split
    · exact (uniquePreserveOrderGo_sublist seen t).cons n
    · exact (uniquePreserveOrderGo_sublist (lowerName n :: seen) t).cons₂ n

theorem uniquePreserveOrderGo_not_seen :
    ∀ (seen : List String) (l : List Name) (a : Name),
      a ∈ uniquePreserveOrderGo seen l → lowerName a ∉ seen
  | seen, [], a, ha => by cases ha
  | seen, n :: t, a, ha => by
    rw [uniquePreserveOrderGo] at ha
    split at ha
    · exact uniquePreserveOrderGo_not_seen seen t a ha
    · rcases List.mem_cons.mp ha with h | h
      · subst h
        rename_i hns
        exact hns
      · have := uniquePreserveOrderGo_not_seen (lowerName n :: seen) t a h
        exact fun hmem => this (List.mem_cons_of_mem _ hmem)

theorem uniquePreserveOrderGo_pairwise :
    ∀ (seen : List String) (l : List Name),
      (uniquePreserveOrderGo seen l).Pairwise (fun a b => lowerName a ≠ lowerName b)
  | seen, [] => List.Pairwise.nil
  | seen, n :: t => by
    rw [uniquePreserveOrderGo]
    split
    · exact uniquePreserveOrderGo_pairwise seen t
    · refine List.Pairwise.cons ?_ (uniquePreserveOrderGo_pairwise (lowerName n :: seen) t)
      intro b hb heq
      exact uniquePreserveOrderGo_not_seen _ t b hb (heq ▸ List.mem_cons_self _ _)

theorem uniquePreserveOrderGo_complete :
    ∀ (seen : List String) (l : List Name) (n : Name), n ∈ l →
      (∃ mm ∈ uniquePreserveOrderGo seen l, lowerName mm = lowerName n) ∨
        lowerName n ∈ seen
  | seen, [], n, hn => by cases hn
  | seen, a :: t, n, hn => by
    rw [uniquePreserveOrderGo]
    rcases List.mem_cons.mp hn with h | h
    · subst h
      split
      · rename_i hseen
        exact Or.inr hseen
      · exact Or.inl ⟨n, List.mem_cons_self _ _, rfl⟩
    · split
      · rename_i hseen
        rcases uniquePreserveOrderGo_complete seen t n h with hex | hs
        · exact Or.inl hex
        · exact Or.inr hs
      · rcases uniquePreserveOrderGo_complete (lowerName a :: seen) t n h with ⟨mm, hm, he⟩ | hs
        · exact Or.inl ⟨mm, List.mem_cons_of_mem _ hm, he⟩
        · rcases List.mem_cons.mp hs with he | hs
          · exact Or.inl ⟨a, List.mem_cons_self _ _, he.symm⟩
          · exact Or.inr hs

theorem ensureCountsFor_not_mem (names : List Name) (pc : CountMap) (n : Name)
    (hn : n ∉ names) : ensureCountsFor names pc n = pc n := by
  induction names generalizing pc with
  | nil => rfl
  | cons a t ih =>
    have hna : n ≠ a := fun h => hn (h ▸ List.mem_cons_self a t)
    have hnt : n ∉ t := fun h => hn (List.mem_cons_of_mem a h)
    unfold ensureCountsFor at ih ⊢
    simp only [List.foldl_cons]
    rw [ih _ hnt]
    split
    · simp [if_neg hna]
    · rfl

theorem ensureCountsFor_spec (names : List Name) (pc : CountMap) (n : Name)
    (hnd : names.Nodup) :
    ensureCountsFor names pc n =
      if n ∈ names ∧ pc n = none then some 0 else pc n := by
  induction names generalizing pc with
  | nil => simp [ensureCountsFor]
  | cons a t ih =>
    unfold ensureCountsFor at ih ⊢
    simp only [List.foldl_cons]
    by_cases hna : n = a
    · subst hna
      have hnt : n ∉ t := (List.nodup_cons.mp hnd).1
      rw [show (List.foldl (fun acc n =>
          if acc n = none then fun x => if x = n then some 0 else acc x else acc)
          (if pc n = none then fun x => if x = n then some 0 else pc x else pc) t) n =
          (if pc n = none then fun x => if x = n then some 0 else pc x else pc) n from
          ensureCountsFor_not_mem t _ n hnt]
      split
      · rename_i hpc
        simp [hpc]
      · rename_i hpc
        simp [hpc]
    · rw [ih _ (List.nodup_cons.mp hnd).2]
      have hstep : (if pc a = none then fun x => if x = a then some 0 else pc x else pc) n =
          pc n := by
        split
        · simp [if_neg hna]
        · rfl
      rw [hstep]
      simp only [List.mem_cons]
      by_cases hmem : n ∈ t
      · simp [hmem, hna]
      · simp [hmem, hna]

theorem list_pairwise_nodup_of_lower (l : List Name)
    (h : l.Pairwise (fun a b => lowerName a ≠ lowerName b)) : l.Nodup :=
  h.imp (fun hne he => hne (congrArg lowerName he))

/-- C9 (amended).  Registering names in add-new-only mode appends, to the end
of the waiting pool, the input names deduplicated case-insensitively (first
spelling wins) and then filtered by exact-string absence from everything in the
system; all other pool, court and queue state is unchanged; every input name
whose case class is not appended has its first spelling already present (by
exact match); and playedCount becomes 0 exactly for appended names that had no
stored count, stored counts being kept. -/
theorem claim_C9_add_new_only (s : SchedState) (list : List Name) :
    ∃ news,
      (addNamesNewOnly list s).participants = s.participants ++ news ∧
      (addNamesNewOnly list s).teamQueue = s.teamQueue ∧
      (addNamesNewOnly list s).courts = s.courts ∧
      (addNamesNewOnly list s).priorityCarry = s.priorityCarry ∧
      (addNamesNewOnly list s).restOnce = s.restOnce ∧
      (addNamesNewOnly list s).disabledCourtsOnce = s.disabledCourtsOnce ∧
      news.Sublist list ∧
      (∀ n ∈ news, n ∉ getAllNamesSet s) ∧
      news.Pairwise (fun a b => lowerName a ≠ lowerName b) ∧
      (∀ n ∈ list, (∀ mm ∈ news, lowerName mm ≠ lowerName n) →
        ∃ mm ∈ list, lowerName mm = lowerName n ∧ mm ∈ getAllNamesSet s) ∧
      (∀ n, (addNamesNewOnly list s).playedCount n =
        if n ∈ news ∧ s.playedCount n = none then some 0 else s.playedCount n) := by
  refine ⟨newOnlyNames list s, ?_, ?_, ?_, ?_, ?_, ?_, ?_, ?_, ?_, ?_, ?_⟩
  case _ =>
    unfold addNamesNewOnly
    split
    · rename_i hempty
      rw [List.isEmpty_iff.mp hempty]
      simp
    · rfl
  case _ => unfold addNamesNewOnly; split <;> rfl
  case _ => unfold addNamesNewOnly; split <;> rfl
  case _ => unfold addNamesNewOnly; split <;> rfl
  case _ => unfold addNamesNewOnly; split <;> rfl
  case _ => unfold addNamesNewOnly; split <;> rfl
  case _ =>
    exact (List.filter_sublist _).trans (uniquePreserveOrderGo_sublist [] list)
  case _ =>
    intro n hn
    have := (List.mem_filter.mp hn).2
    simpa using this
  case _ =>
    exact List.Pairwise.filter _ (uniquePreserveOrderGo_pairwise [] list)
  case _ =>
    intro n hn hnone
    rcases uniquePreserveOrderGo_complete [] list n hn with ⟨mm, hm, he⟩ | hs
    · by_cases hall : mm ∈ getAllNamesSet s
      · exact ⟨mm, (uniquePreserveOrderGo_sublist [] list).mem hm, he, hall⟩
      · exact absurd he (hnone mm (List.mem_filter.mpr ⟨hm, by simpa using hall⟩))
    · cases hs
  case _ =>
    intro n
    have hnd : (newOnlyNames list s).Nodup :=
      list_pairwise_nodup_of_lower _
        (List.Pairwise.filter _ (uniquePreserveOrderGo_pairwise [] list))
    unfold addNamesNewOnly
    split
    · rename_i hempty
      rw [List.isEmpty_iff.mp hempty]
      simp
    · exact ensureCountsFor_spec _ s.playedCount n hnd

def c9State : SchedState :=
  { participants := ["Alice"]
    teamQueue := []
    courts := [⟨1, "코트 1", none⟩]
    lastTeamSigByPlayer := fun _ => none
    priorityCarry := []
    restOnce := []
    playedCount := fun _ => none
    disabledCourtsOnce := [] }

def c9StateB : SchedState :=
  { participants := []
    teamQueue := []
    courts := [⟨1, "코트 1", none⟩]
    lastTeamSigByPlayer := fun _ => none
    priorityCarry := []
    restOnce := []
    playedCount := fun n => if n = "Bob" then some 7 else none
    disabledCourtsOnce := [] }

/-- C9 counterexample.  The claim says add-new-only ignores any name already
present under case-insensitive identity and initializes appended counts to 0.
But with "Alice" in the waiting pool, registering "ALICE" appends it (the
system check is exact-string), and registering "Bob" on a state that still
stores a count 7 for the departed "Bob" keeps the old count instead of 0. -/
theorem claim_C9_counterexample :
    (addNamesNewOnly ["ALICE"] c9State).participants = ["Alice", "ALICE"] ∧
    (addNamesNewOnly ["ALICE"] c9State).participants ≠ c9State.participants ∧
    (addNamesNewOnly ["Bob"] c9StateB).participants = ["Bob"] ∧
    (addNamesNewOnly ["Bob"] c9StateB).playedCount "Bob" = some 7 := by
  refine ⟨by decide, by decide, by decide, rfl⟩

/-! ## Claim C10: conservation of eligible players by a formation run -/

theorem filter_not_mem_eligPC (s : SchedState)
    (hdisj : ∀ p ∈ s.participants, p ∉ s.priorityCarry) :
    (eligibleParticipants s).filter (fun p => decide (p ∉ eligiblePriorityCarry s)) =
      eligibleParticipants s := by
  apply List.filter_eq_self.mpr
  intro p hp
  have hpp : p ∈ s.participants := (List.mem_filter.mp hp).1
  have : p ∉ eligiblePriorityCarry s := by
    intro hmem
    exact hdisj p hpp (List.mem_filter.mp hmem).1
  simpa using this

/-- C10.  On any formation run from a state whose waiting pool and priority
carry-over are duplicate-free and disjoint with at least 4 eligible players,
the produced groups together with the new carry-over are exactly a permutation
of the eligible players (none lost, none duplicated), every produced group has
4 distinct members, and no player appears in two produced groups. -/
theorem claim_C10_conservation (fuel : Nat) (rnd : List Nat) (s s' : SchedState)
    (hge : 4 ≤ totalAvailable s)
    (hndP : s.participants.Nodup) (hndC : s.priorityCarry.Nodup)
    (hdisj : ∀ p ∈ s.participants, p ∉ s.priorityCarry)
    (hrun : handleMakeTeams fuel rnd s = some s') :
    ∃ pt ot rndF,
      formationPhase s.lastTeamSigByPlayer fuel rnd (eligiblePriorityCarry s)
          ((eligibleParticipants s).filter (fun p => decide (p ∉ eligiblePriorityCarry s))) =
        some (pt, ot, s'.priorityCarry, rndF) ∧
      ((pt ++ ot).flatten ++ s'.priorityCarry).Perm
        (eligibleParticipants s ++ eligiblePriorityCarry s) ∧
      ((pt ++ ot).flatten ++ s'.priorityCarry).Nodup ∧
      (∀ g ∈ pt ++ ot, g.length = 4 ∧ g.Nodup) ∧
      (pt ++ ot).Pairwise List.Disjoint := by
  have hnlt : ¬ ((eligibleParticipants s).length + (eligiblePriorityCarry s).length < 4) := by
    have : totalAvailable s = (eligibleParticipants s).length +
      (eligiblePriorityCarry s).length := rfl
    omega
  unfold handleMakeTeams at hrun
  rw [if_neg hnlt] at hrun
  split at hrun
  · cases hrun
  · rename_i pt ot rest rndF hform
    have hs' : s' = handleMakeTeamsAssign s pt ot rest := (Option.some.inj hrun).symm
    have hrest : s'.priorityCarry = rest := by rw [hs']; rfl
    refine ⟨pt, ot, rndF, by rw [hrest]; exact hform, ?_⟩
    obtain ⟨hperm, hlen⟩ := formationPhase_spec _ _ _ _ _ _ _ _ _ hform
    rw [filter_not_mem_eligPC s hdisj] at hperm
    have hperm2 : ((pt ++ ot).flatten ++ rest).Perm
        (eligibleParticipants s ++ eligiblePriorityCarry s) :=
      hperm.trans List.perm_append_comm
    have hndE : (eligibleParticipants s ++ eligiblePriorityCarry s).Nodup := by
      rw [List.nodup_append]
      refine ⟨hndP.filter _, hndC.filter _, ?_⟩
      intro p hp hpc
      exact hdisj p (List.mem_filter.mp hp).1 (List.mem_filter.mp hpc).1
    have hndAll : ((pt ++ ot).flatten ++ rest).Nodup := hperm2.nodup_iff.mpr hndE
    have hndFlat : ((pt ++ ot).flatten).Nodup := (List.nodup_append.mp hndAll).1
    have hjoin := List.nodup_flatten.mp hndFlat
    rw [hrest]
    exact ⟨hperm2, hndAll,
      fun g hg => ⟨hlen g hg, hjoin.1 g hg⟩, hjoin.2⟩

def c10State : SchedState :=
  { participants := ["A", "B", "C", "D", "E", "F"]
    teamQueue := []
    courts := [⟨1, "코트 1", none⟩, ⟨2, "코트 2", none⟩]
    lastTeamSigByPlayer := fun _ => none
    priorityCarry := ["P"]
    restOnce := []
    playedCount := fun _ => none
    disabledCourtsOnce := [] }

def c10Result : SchedState := (handleMakeTeams 10 [1, 3, 2] c10State).getD c10State

theorem claim_C10_witness :
    (4 ≤ totalAvailable c10State ∧ c10State.participants.Nodup ∧
      c10State.priorityCarry.Nodup ∧
      (∀ p ∈ c10State.participants, p ∉ c10State.priorityCarry)) ∧
    (∃ pt ot rndF,
      formationPhase c10State.lastTeamSigByPlayer 10 [1, 3, 2] (eligiblePriorityCarry c10State)
          ((eligibleParticipants c10State).filter
            (fun p => decide (p ∉ eligiblePriorityCarry c10State))) =
        some (pt, ot, c10Result.priorityCarry, rndF) ∧
      ((pt ++ ot).flatten ++ c10Result.priorityCarry).Perm
        (eligibleParticipants c10State ++ eligiblePriorityCarry c10State) ∧
      ((pt ++ ot).flatten ++ c10Result.priorityCarry).Nodup ∧
      (∀ g ∈ pt ++ ot, g.length = 4 ∧ g.Nodup) ∧
      (pt ++ ot).Pairwise List.Disjoint) :=
  ⟨⟨by decide, by decide, by decide, by decide⟩,
    claim_C10_conservation 10 [1, 3, 2] c10State c10Result (by decide)
      (by decide) (by decide) (by decide) rfl⟩

/-! ## Seating-pass lemmas for claim C1 -/

theorem seatQueue_cons (dis : List Nat) (c : Court) (cs : List Court) (q : List Team)
    (m : SigMap) :
    seatQueue dis (c :: cs) q m =
      if c.team = none ∧ c.id ∉ dis then
        match q with
        | [] => (c :: (seatQueue dis cs [] m).1,
            (seatQueue dis cs [] m).2.1, (seatQueue dis cs [] m).2.2)
        | t :: ts => ({ c with team := some t } ::
              (seatQueue dis cs ts (markTeamAsStarted t m)).1,
            (seatQueue dis cs ts (markTeamAsStarted t m)).2.1,
            (seatQueue dis cs ts (markTeamAsStarted t m)).2.2)
      else (c :: (seatQueue dis cs q m).1,
          (seatQueue dis cs q m).2.1, (seatQueue dis cs q m).2.2) := by
  rw [seatQueue.eq_def]

theorem seatQueue_nil (dis : List Nat) :
    ∀ (cs : List Court) (m : SigMap), seatQueue dis cs [] m = (cs, [], m)
  | [], m => rfl
  | c :: cs, m => by
    rw [seatQueue_cons]
    by_cases h : c.team = none ∧ c.id ∉ dis
    · rw [if_pos h]
      rw [seatQueue_nil dis cs m]
    · rw [if_neg h]
      rw [seatQueue_nil dis cs m]

theorem seatQueue_length (dis : List Nat) :
    ∀ (cs : List Court) (q : List Team) (m : SigMap),
      (seatQueue dis cs q m).1.length = cs.length
  | [], q, m => rfl
  | c :: cs, q, m => by
    rw [seatQueue_cons]
    by_cases h : c.team = none ∧ c.id ∉ dis
    · rw [if_pos h]
      match q with
      | [] => simpa using seatQueue_length dis cs [] m
      | t :: ts => simpa using seatQueue_length dis cs ts _
    · rw [if_neg h]
      simpa using seatQueue_length dis cs q m

theorem seatQueue_queue (dis : List Nat) :
    ∀ (cs : List Court) (q : List Team) (m : SigMap),
      (seatQueue dis cs q m).2.1 =
        q.drop (min (emptyEnabledPos dis cs).length q.length)
  | [], q, m => by simp [seatQueue, emptyEnabledPos]
  | c :: cs, q, m => by
    rw [seatQueue_cons, emptyEnabledPos]
    by_cases h : c.team = none ∧ c.id ∉ dis
    · rw [if_pos h, if_pos h]
      match q with
      | [] => simp [seatQueue_nil]
      | t :: ts =>
        simp only [List.length_cons, List.length_map]
        rw [seatQueue_queue dis cs ts _]
        have heq : min ((emptyEnabledPos dis cs).length + 1) (ts.length + 1) =
            min (emptyEnabledPos dis cs).length ts.length + 1 := by omega
        rw [heq]
        rfl
    · rw [if_neg h, if_neg h]
      simp only [List.length_map]
      exact seatQueue_queue dis cs q m

theorem mem_emptyEnabledPos (dis : List Nat) :
    ∀ (cs : List Court) (p : Nat),
      p ∈ emptyEnabledPos dis cs ↔
        ∃ c, cs[p]? = some c ∧ c.team = none ∧ c.id ∉ dis
  | [], p => by simp [emptyEnabledPos]
  | c :: cs, p => by
    rw [emptyEnabledPos]
    by_cases h : c.team = none ∧ c.id ∉ dis
    · rw [if_pos h]
      match p with
      | 0 => simp [h.1, h.2]
      | p + 1 =>
        simp only [List.mem_cons, List.mem_map, List.getElem?_cons_succ]
        rw [← mem_emptyEnabledPos dis cs p]
        constructor
        · rintro (h' | ⟨p', hp', he⟩)
          · omega
          · have : p' = p := by omega
            exact this ▸ hp'
        · intro h'
          exact Or.inr ⟨p, h', rfl⟩
    · rw [if_neg h]
      match p with
      | 0 =>
        simp only [List.mem_map, List.getElem?_cons_zero, Option.some.injEq]
        constructor
        · rintro ⟨p', hp', he⟩
          omega
        · rintro ⟨c', hc', ht, hd⟩
          subst hc'
          exact absurd ⟨ht, hd⟩ h
      | p + 1 =>
        simp only [List.mem_map, List.getElem?_cons_succ]
        rw [← mem_emptyEnabledPos dis cs p]
        constructor
        · rintro ⟨p', hp', he⟩
          have : p' = p := by omega
          exact this ▸ hp'
        · intro h'
          exact ⟨p, h', rfl⟩

theorem seatQueue_seated (dis : List Nat) :
    ∀ (cs : List Court) (q : List Team) (m : SigMap) (r p : Nat),
      (emptyEnabledPos dis cs)[r]? = some p → r < q.length →
      ∃ c t, cs[p]? = some c ∧ q[r]? = some t ∧
        (seatQueue dis cs q m).1[p]? = some { c with team := some t }
  | [], q, m, r, p, hE, hr => by simp [emptyEnabledPos] at hE
  | c :: cs, q, m, r, p, hE, hr => by
    rw [emptyEnabledPos] at hE
    rw [seatQueue_cons]
    by_cases h : c.team = none ∧ c.id ∉ dis
    · rw [if_pos h] at hE ⊢
      match q, hr with
      | t :: ts, hr =>
        match r, hE, hr with
        | 0, hE, hr =>
          have hp : p = 0 := by simpa using hE.symm
          subst hp
          exact ⟨c, t, by simp, by simp, by simp⟩
        | r + 1, hE, hr =>
          simp only [List.getElem?_cons_succ, List.getElem?_map] at hE
          obtain ⟨p', hp', hpp⟩ : ∃ p', (emptyEnabledPos dis cs)[r]? = some p' ∧ p' + 1 = p := by
            cases hE' : (emptyEnabledPos dis cs)[r]? with
            | none => rw [hE'] at hE; simp at hE
            | some p'' =>
              rw [hE'] at hE
              simp at hE
              exact ⟨p'', rfl, by omega⟩
          subst hpp
          have hr' : r < ts.length := by simpa using hr
          obtain ⟨c', t', hc', ht', hres⟩ := seatQueue_seated dis cs ts _ r p' hp' hr'
          exact ⟨c', t', by simpa using hc', by simpa using ht', by simpa using hres⟩
    · rw [if_neg h] at hE ⊢
      simp only [List.getElem?_map] at hE
      obtain ⟨p', hp', hpp⟩ : ∃ p', (emptyEnabledPos dis cs)[r]? = some p' ∧ p' + 1 = p := by
        cases hE' : (emptyEnabledPos dis cs)[r]? with
        | none => rw [hE'] at hE; simp at hE
        | some p'' =>
          rw [hE'] at hE
          simp at hE
          exact ⟨p'', rfl, by omega⟩
      subst hpp
      obtain ⟨c', t', hc', ht', hres⟩ := seatQueue_seated dis cs q m r p' hp' hr
      exact ⟨c', t', by simpa using hc', ht', by simpa using hres⟩

theorem seatQueue_untouched (dis : List Nat) :
    ∀ (cs : List Court) (q : List Team) (m : SigMap) (p : Nat) (c : Court),
      cs[p]? = some c → p ∉ emptyEnabledPos dis cs →
      (seatQueue dis cs q m).1[p]? = some c
  | [], q, m, p, c, hc, hp => by simp at hc
  | c0 :: cs, q, m, p, c, hc, hp => by
    rw [emptyEnabledPos] at hp
    rw [seatQueue_cons]
    by_cases h : c0.team = none ∧ c0.id ∉ dis
    · rw [if_pos h] at hp ⊢
      match p, hc, hp with
      | 0, hc, hp => exact absurd (List.mem_cons_self _ _) hp
      | p + 1, hc, hp =>
        have hp' : p ∉ emptyEnabledPos dis cs := by
          intro hmem
          exact hp (List.mem_cons_of_mem _ (List.mem_map.mpr ⟨p, hmem, rfl⟩))
        match q with
        | [] =>
          rw [seatQueue_nil]
          simpa using hc
        | t :: ts =>
          simpa using seatQueue_untouched dis cs ts _ p c (by simpa using hc) hp'
    · rw [if_neg h] at hp ⊢
      match p, hc, hp with
      | 0, hc, hp => simpa using hc
      | p + 1, hc, hp =>
        have hp' : p ∉ emptyEnabledPos dis cs := by
          intro hmem
          exact hp (List.mem_map.mpr ⟨p, hmem, rfl⟩)
        simpa using seatQueue_untouched dis cs q m p c (by simpa using hc) hp'

theorem seatQueue_over (dis : List Nat) :
    ∀ (cs : List Court) (q : List Team) (m : SigMap) (r p : Nat),
      (emptyEnabledPos dis cs)[r]? = some p → q.length ≤ r →
      (seatQueue dis cs q m).1[p]? = cs[p]?
  | [], q, m, r, p, hE, hr => by simp [emptyEnabledPos] at hE
  | c :: cs, q, m, r, p, hE, hr => by
    rw [emptyEnabledPos] at hE
    rw [seatQueue_cons]
    by_cases h : c.team = none ∧ c.id ∉ dis
    · rw [if_pos h] at hE ⊢
      match q, hr with
      | [], hr =>
        rw [seatQueue_nil]
      | t :: ts, hr =>
        match r, hE, hr with
        | r + 1, hE, hr =>
          simp only [List.getElem?_cons_succ, List.getElem?_map] at hE
          obtain ⟨p', hp', hpp⟩ : ∃ p', (emptyEnabledPos dis cs)[r]? = some p' ∧ p' + 1 = p := by
            cases hE' : (emptyEnabledPos dis cs)[r]? with
            | none => rw [hE'] at hE; simp at hE
            | some p'' =>
              rw [hE'] at hE
              simp at hE
              exact ⟨p'', rfl, by omega⟩
          subst hpp
          have hr' : ts.length ≤ r := by simpa using hr
          simpa using seatQueue_over dis cs ts _ r p' hp' hr'
    · rw [if_neg h] at hE ⊢
      simp only [List.getElem?_map] at hE
      obtain ⟨p', hp', hpp⟩ : ∃ p', (emptyEnabledPos dis cs)[r]? = some p' ∧ p' + 1 = p := by
        cases hE' : (emptyEnabledPos dis cs)[r]? with
        | none => rw [hE'] at hE; simp at hE
        | some p'' =>
          rw [hE'] at hE
          simp at hE
          exact ⟨p'', rfl, by omega⟩
      subst hpp
      simpa using seatQueue_over dis cs q m r p' hp' hr

theorem seatQueue_append (dis : List Nat) (nt : List Team) :
    ∀ (cs : List Court) (q : List Team) (m : SigMap),
      (seatQueue dis (seatQueue dis cs q m).1 nt (seatQueue dis cs q m).2.2).1 =
        (seatQueue dis cs (q ++ nt) m).1 ∧
      (seatQueue dis cs q m).2.1 ++
          (seatQueue dis (seatQueue dis cs q m).1 nt (seatQueue dis cs q m).2.2).2.1 =
        (seatQueue dis cs (q ++ nt) m).2.1 ∧
      (seatQueue dis (seatQueue dis cs q m).1 nt (seatQueue dis cs q m).2.2).2.2 =
        (seatQueue dis cs (q ++ nt) m).2.2
  | [], q, m => by simp [seatQueue]
  | c :: cs, q, m => by
    by_cases h : c.team = none ∧ c.id ∉ dis
    · match q with
      | [] =>
        rw [seatQueue_nil]
        simp
      | t :: ts =>
        have hstep : seatQueue dis (c :: cs) (t :: ts) m =
            ({ c with team := some t } ::
                (seatQueue dis cs ts (markTeamAsStarted t m)).1,
              (seatQueue dis cs ts (markTeamAsStarted t m)).2.1,
              (seatQueue dis cs ts (markTeamAsStarted t m)).2.2) := by
          rw [seatQueue_cons, if_pos h]
        have hstep2 : seatQueue dis (c :: cs) ((t :: ts) ++ nt) m =
            ({ c with team := some t } ::
                (seatQueue dis cs (ts ++ nt) (markTeamAsStarted t m)).1,
              (seatQueue dis cs (ts ++ nt) (markTeamAsStarted t m)).2.1,
              (seatQueue dis cs (ts ++ nt) (markTeamAsStarted t m)).2.2) := by
          rw [List.cons_append, seatQueue_cons, if_pos h]
        rw [hstep, hstep2]
        have hskip : ¬ (({ c with team := some t } : Court).team = none ∧
            ({ c with team := some t } : Court).id ∉ dis) := by
          simp
        have hstep3 : seatQueue dis ({ c with team := some t } ::
              (seatQueue dis cs ts (markTeamAsStarted t m)).1) nt
              (seatQueue dis cs ts (markTeamAsStarted t m)).2.2 =
            ({ c with team := some t } ::
                (seatQueue dis (seatQueue dis cs ts (markTeamAsStarted t m)).1 nt
                  (seatQueue dis cs ts (markTeamAsStarted t m)).2.2).1,
              (seatQueue dis (seatQueue dis cs ts (markTeamAsStarted t m)).1 nt
                  (seatQueue dis cs ts (markTeamAsStarted t m)).2.2).2.1,
              (seatQueue dis (seatQueue dis cs ts (markTeamAsStarted t m)).1 nt
                  (seatQueue dis cs ts (markTeamAsStarted t m)).2.2).2.2) := by
          rw [seatQueue_cons, if_neg hskip]
        rw [hstep3]
        obtain ⟨ih1, ih2, ih3⟩ := seatQueue_append dis nt cs ts (markTeamAsStarted t m)
        exact ⟨by rw [ih1], by simpa using ih2, ih3⟩
    · have hstep : seatQueue dis (c :: cs) q m =
          (c :: (seatQueue dis cs q m).1,
            (seatQueue dis cs q m).2.1, (seatQueue dis cs q m).2.2) := by
        rw [seatQueue_cons, if_neg h]
      have hstep2 : seatQueue dis (c :: cs) (q ++ nt) m =
          (c :: (seatQueue dis cs (q ++ nt) m).1,
            (seatQueue dis cs (q ++ nt) m).2.1, (seatQueue dis cs (q ++ nt) m).2.2) := by
        rw [seatQueue_cons, if_neg h]
      rw [hstep, hstep2]
      have hstep3 : seatQueue dis (c :: (seatQueue dis cs q m).1) nt
            (seatQueue dis cs q m).2.2 =
          (c :: (seatQueue dis (seatQueue dis cs q m).1 nt (seatQueue dis cs q m).2.2).1,
            (seatQueue dis (seatQueue dis cs q m).1 nt (seatQueue dis cs q m).2.2).2.1,
            (seatQueue dis (seatQueue dis cs q m).1 nt (seatQueue dis cs q m).2.2).2.2) := by
        rw [seatQueue_cons, if_neg h]
      rw [hstep3]
      obtain ⟨ih1, ih2, ih3⟩ := seatQueue_append dis nt cs q m
      exact ⟨by rw [ih1], by simpa using ih2, ih3⟩

/-! ## Claim C1: formation-run seating order -/

theorem avgLe_iff_avgCount (pc : CountMap) (a b : Team)
    (ha : a.length = 4) (hb : b.length = 4) :
    avgLe pc a b ↔ avgCount pc a ≤ avgCount pc b := by
  have hcast : ∀ (l : List Name), (((l.map (getCount pc)).sum : Nat) : ℚ) =
      (l.map fun n => (getCount pc n : ℚ)).sum := by
    intro l
    rw [Nat.cast_list_sum, List.map_map]
    rfl
  unfold avgLe avgCount
  rw [ha, hb]
  norm_num
  rw [← hcast a, ← hcast b]
  rw [div_le_div_iff₀ (by norm_num) (by norm_num)]
  constructor
  · intro h
    exact_mod_cast Nat.mul_le_mul_right 4 h
  · intro h
    have : ((a.map (getCount pc)).sum * 4 : ℚ) ≤ ((b.map (getCount pc)).sum * 4 : ℚ) := by
      exact_mod_cast h
    have h2 : ((a.map (getCount pc)).sum * 4 : Nat) ≤ (b.map (getCount pc)).sum * 4 := by
      exact_mod_cast this
    omega

theorem sorted_avgCount_of_sorted_avgLe (pc : CountMap) (l : List Team)
    (h4 : ∀ g ∈ l, g.length = 4) (hs : l.Sorted (avgLe pc)) :
    l.Sorted (fun a b => avgCount pc a ≤ avgCount pc b) :=
  List.Pairwise.imp_of_mem
    (fun ha hb hab => (avgLe_iff_avgCount pc _ _ (h4 _ ha) (h4 _ hb)).mp hab) hs

/-- C1.  A successful formation run with at least 4 eligible players seats, in
order, the pre-existing queue (oldest first), then the priority-origin teams,
then the generic teams sorted ascending by average play count, onto the
empty-and-enabled courts taken in ascending position; courts outside that list
are untouched, and the teams left over once the empty enabled courts run out
form the new queue: remaining pre-existing entries first, then the unseated new
teams. -/
theorem claim_C1_seating_order (fuel : Nat) (rnd : List Nat) (s s' : SchedState)
    (hge : 4 ≤ totalAvailable s)
    (hrun : handleMakeTeams fuel rnd s = some s') :
    ∃ pt ot rest rndF sortOt,
      formationPhase s.lastTeamSigByPlayer fuel rnd (eligiblePriorityCarry s)
          ((eligibleParticipants s).filter (fun p => decide (p ∉ eligiblePriorityCarry s))) =
        some (pt, ot, rest, rndF) ∧
      sortOt.Perm ot ∧
      sortOt.Sorted (fun a b => avgCount s.playedCount a ≤ avgCount s.playedCount b) ∧
      (∀ p, p ∈ emptyEnabledPos s.disabledCourtsOnce s.courts ↔
        ∃ c, s.courts[p]? = some c ∧ c.team = none ∧ c.id ∉ s.disabledCourtsOnce) ∧
      s'.teamQueue = (s.teamQueue ++ (pt ++ sortOt)).drop
        (min (emptyEnabledPos s.disabledCourtsOnce s.courts).length
          (s.teamQueue ++ (pt ++ sortOt)).length) ∧
      s'.courts.length = s.courts.length ∧
      (∀ r p, (emptyEnabledPos s.disabledCourtsOnce s.courts)[r]? = some p →
        r < (s.teamQueue ++ (pt ++ sortOt)).length →
        ∃ c t, s.courts[p]? = some c ∧ (s.teamQueue ++ (pt ++ sortOt))[r]? = some t ∧
          s'.courts[p]? = some { c with team := some t }) ∧
      (∀ p c, s.courts[p]? = some c → p ∉ emptyEnabledPos s.disabledCourtsOnce s.courts →
        s'.courts[p]? = some c) ∧
      (∀ r p, (emptyEnabledPos s.disabledCourtsOnce s.courts)[r]? = some p →
        (s.teamQueue ++ (pt ++ sortOt)).length ≤ r → s'.courts[p]? = s.courts[p]?) := by
  have hnlt : ¬ ((eligibleParticipants s).length + (eligiblePriorityCarry s).length < 4) := by
    have : totalAvailable s = (eligibleParticipants s).length +
      (eligiblePriorityCarry s).length := rfl
    omega
  unfold handleMakeTeams at hrun
  rw [if_neg hnlt] at hrun
  split at hrun
  · cases hrun
  · rename_i pt ot rest rndF hform
    have hs' : s' = handleMakeTeamsAssign s pt ot rest := (Option.some.inj hrun).symm
    obtain ⟨-, hlen⟩ := formationPhase_spec _ _ _ _ _ _ _ _ _ hform
    refine ⟨pt, ot, rest, rndF, ot.insertionSort (avgLe s.playedCount), hform,
      List.perm_insertionSort _ _, ?_, mem_emptyEnabledPos _ _, ?_, ?_, ?_, ?_, ?_⟩
    · refine sorted_avgCount_of_sorted_avgLe _ _ ?_ (List.sorted_insertionSort _ _)
      intro g hg
      exact hlen g (List.mem_append.mpr (Or.inr ((List.perm_insertionSort _ _).mem_iff.mp hg)))
    · -- final queue
      rw [hs']
      show (seatQueue s.disabledCourtsOnce s.courts s.teamQueue s.lastTeamSigByPlayer).2.1 ++
        (seatQueue s.disabledCourtsOnce
          (seatQueue s.disabledCourtsOnce s.courts s.teamQueue s.lastTeamSigByPlayer).1
          (pt ++ ot.insertionSort (avgLe s.playedCount))
          (seatQueue s.disabledCourtsOnce s.courts s.teamQueue s.lastTeamSigByPlayer).2.2).2.1 = _
      rw [(seatQueue_append s.disabledCourtsOnce (pt ++ ot.insertionSort (avgLe s.playedCount))
        s.courts s.teamQueue s.lastTeamSigByPlayer).2.1]
      rw [seatQueue_queue]
    · -- courts length
      rw [hs']
      show (seatQueue s.disabledCourtsOnce
        (seatQueue s.disabledCourtsOnce s.courts s.teamQueue s.lastTeamSigByPlayer).1
        (pt ++ ot.insertionSort (avgLe s.playedCount))
        (seatQueue s.disabledCourtsOnce s.courts s.teamQueue s.lastTeamSigByPlayer).2.2).1.length = _
      rw [(seatQueue_append s.disabledCourtsOnce (pt ++ ot.insertionSort (avgLe s.playedCount))
        s.courts s.teamQueue s.lastTeamSigByPlayer).1]
      rw [seatQueue_length]
    · -- seated positions
      intro r p hE hr
      rw [hs']
      have hcourts : (handleMakeTeamsAssign s pt ot rest).courts =
          (seatQueue s.disabledCourtsOnce s.courts
            (s.teamQueue ++ (pt ++ ot.insertionSort (avgLe s.playedCount)))
            s.lastTeamSigByPlayer).1 :=
        (seatQueue_append s.disabledCourtsOnce _ s.courts s.teamQueue s.lastTeamSigByPlayer).1
      rw [hcourts]
      exact seatQueue_seated s.disabledCourtsOnce s.courts _ _ r p hE hr
    · -- untouched positions
      intro p c hc hp
      rw [hs']
      have hcourts : (handleMakeTeamsAssign s pt ot rest).courts =
          (seatQueue s.disabledCourtsOnce s.courts
            (s.teamQueue ++ (pt ++ ot.insertionSort (avgLe s.playedCount)))
            s.lastTeamSigByPlayer).1 :=
        (seatQueue_append s.disabledCourtsOnce _ s.courts s.teamQueue s.lastTeamSigByPlayer).1
      rw [hcourts]
      exact seatQueue_untouched s.disabledCourtsOnce s.courts _ _ p c hc hp
    · -- empty-enabled positions beyond the team supply
      intro r p hE hr
      rw [hs']
      have hcourts : (handleMakeTeamsAssign s pt ot rest).courts =
          (seatQueue s.disabledCourtsOnce s.courts
            (s.teamQueue ++ (pt ++ ot.insertionSort (avgLe s.playedCount)))
            s.lastTeamSigByPlayer).1 :=
        (seatQueue_append s.disabledCourtsOnce _ s.courts s.teamQueue s.lastTeamSigByPlayer).1
      rw [hcourts]
      exact seatQueue_over s.disabledCourtsOnce s.courts _ _ r p hE hr

def c1State : SchedState :=
  { participants := ["A", "B", "C", "D"]
    teamQueue := [["P1", "P2", "P3", "P4"]]
    courts := [⟨1, "코트 1", none⟩, ⟨2, "코트 2", none⟩]
    lastTeamSigByPlayer := fun _ => none
    priorityCarry := []
    restOnce := []
    playedCount := fun _ => none
    disabledCourtsOnce := [] }

def c1Result : SchedState := (handleMakeTeams 10 [] c1State).getD c1State

theorem claim_C1_witness :
    4 ≤ totalAvailable c1State ∧
    (∃ pt ot rest rndF sortOt,
      formationPhase c1State.lastTeamSigByPlayer 10 [] (eligiblePriorityCarry c1State)
          ((eligibleParticipants c1State).filter
            (fun p => decide (p ∉ eligiblePriorityCarry c1State))) =
        some (pt, ot, rest, rndF) ∧
      sortOt.Perm ot ∧
      sortOt.Sorted (fun a b => avgCount c1State.playedCount a ≤ avgCount c1State.playedCount b) ∧
      (∀ p, p ∈ emptyEnabledPos c1State.disabledCourtsOnce c1State.courts ↔
        ∃ c, c1State.courts[p]? = some c ∧ c.team = none ∧ c.id ∉ c1State.disabledCourtsOnce) ∧
      c1Result.teamQueue = (c1State.teamQueue ++ (pt ++ sortOt)).drop
        (min (emptyEnabledPos c1State.disabledCourtsOnce c1State.courts).length
          (c1State.teamQueue ++ (pt ++ sortOt)).length) ∧
      c1Result.courts.length = c1State.courts.length ∧
      (∀ r p, (emptyEnabledPos c1State.disabledCourtsOnce c1State.courts)[r]? = some p →
        r < (c1State.teamQueue ++ (pt ++ sortOt)).length →
        ∃ c t, c1State.courts[p]? = some c ∧
          (c1State.teamQueue ++ (pt ++ sortOt))[r]? = some t ∧
          c1Result.courts[p]? = some { c with team := some t }) ∧
      (∀ p c, c1State.courts[p]? = some c →
        p ∉ emptyEnabledPos c1State.disabledCourtsOnce c1State.courts →
        c1Result.courts[p]? = some c) ∧
      (∀ r p, (emptyEnabledPos c1State.disabledCourtsOnce c1State.courts)[r]? = some p →
        (c1State.teamQueue ++ (pt ++ sortOt)).length ≤ r →
        c1Result.courts[p]? = c1State.courts[p]?)) :=
  ⟨by decide, claim_C1_seating_order 10 [] c1State c1Result (by decide) rfl⟩

/-! ## Claim C8: termination of the formation run -/

theorem getD_replicate (a : Name) : ∀ (n i : Nat), i < n →
    (List.replicate n a).getD i "" = a
  | n + 1, 0, _ => rfl
  | n + 1, i + 1, h => getD_replicate a n i (by omega)

theorem eraseIdx_replicate (a : Name) : ∀ (n i : Nat), i < n →
    (List.replicate n a).eraseIdx i = List.replicate (n - 1) a
  | n + 1, 0, _ => by simp [List.replicate_succ]
  | n + 2, i + 1, h => by
    rw [List.replicate_succ, List.eraseIdx_cons_succ, eraseIdx_replicate a (n + 1) i (by omega)]
    simp [List.replicate_succ]

theorem sample_replicate (a : Name) : ∀ (k n : Nat) (rnd : List Nat),
    weightedSampleWithoutReplacement (List.replicate n a) k rnd =
      ((List.replicate (min k n) a, List.replicate (n - min k n) a), rnd.drop (min k n))
  | 0, n, rnd => by simp [weightedSampleWithoutReplacement]
  | k + 1, 0, rnd => by simp [weightedSampleWithoutReplacement]
  | k + 1, n + 1, rnd => by
    have hne : ¬ (List.replicate (n + 1) a).isEmpty := by simp
    have hidx : weightedPickIndex (List.replicate (n + 1) a) (rnd.headD 0) < n + 1 := by
      have : (List.replicate (n + 1) a).length = n + 1 := by simp
      simpa [weightedPickIndex, this] using Nat.mod_lt _ (by omega)
    rw [weightedSampleWithoutReplacement]
    simp only [hne, Bool.false_eq_true, if_false]
    rw [getD_replicate a (n + 1) _ hidx, eraseIdx_replicate a (n + 1) _ hidx]
    simp only [Nat.add_sub_cancel]
    rw [sample_replicate a k n rnd.tail]
    have h1 : min (k + 1) (n + 1) = min k n + 1 := by omega
    have h2 : (n + 1) - min (k + 1) (n + 1) = n - min k n := by omega
    rw [h2, h1, List.replicate_succ]
    have h3 : rnd.tail.drop (min k n) = rnd.drop (min k n + 1) := by
      rw [← List.drop_one, List.drop_drop]
      congr 1
      omega
    rw [h3]

theorem shuffleGo_replicate (a : Name) : ∀ (n : Nat) (rnd : List Nat),
    shuffleGo n (List.replicate n a) rnd = (List.replicate n a, rnd.drop n)
  | 0, rnd => by simp [shuffleGo]
  | n + 1, rnd => by
    have hne : ¬ (List.replicate (n + 1) a).isEmpty := by simp
    have hlen : (List.replicate (n + 1) a).length = n + 1 := by simp
    have hidx : rnd.headD 0 % (List.replicate (n + 1) a).length < n + 1 := by
      rw [hlen]
      exact Nat.mod_lt _ (by omega)
    rw [shuffleGo]
    simp only [hne, Bool.false_eq_true, if_false]
    rw [getD_replicate a (n + 1) _ hidx, eraseIdx_replicate a (n + 1) _ hidx]
    simp only [Nat.add_sub_cancel]
    rw [shuffleGo_replicate a n rnd.tail]
    have h3 : rnd.tail.drop n = rnd.drop (n + 1) := by
      rw [← List.drop_one, List.drop_drop]
      congr 1
      omega
    rw [h3, List.replicate_succ]

theorem shuffle_replicate (a : Name) (n : Nat) (rnd : List Nat) :
    shuffle (List.replicate n a) rnd = (List.replicate n a, rnd.drop n) := by
  unfold shuffle
  rw [show (List.replicate n a).length = n from by simp, shuffleGo_replicate]

/-- The signature map of the counterexample state: player "A" last played in
the all-"A" group. -/
def c8Sig : SigMap := fun n => if n = "A" then some "A|A|A|A" else none

theorem c8_genericLoop_none : ∀ (fuel : Nat) (rnd : List Nat) (acc : List Team),
    genericLoop c8Sig fuel (List.replicate 5 "A") rnd acc = none := by
  intro fuel
  induction fuel with
  | zero =>
    intro rnd acc
    rw [genericLoop.eq_def]
    simp
  | succ fuel ih =>
    intro rnd acc
    have hs : weightedSampleWithoutReplacement (List.replicate 5 "A") 4 rnd =
        ((List.replicate 4 "A", List.replicate 1 "A"), rnd.drop 4) := by
      rw [sample_replicate]
      norm_num
    rw [genericLoop.eq_def]
    simp only [hs, List.length_replicate, show (4:Nat) ≤ 5 from by norm_num, if_true,
      show isExactRepeatTeamWithMap (List.replicate 4 "A") c8Sig = true from by decide,
      show tryBreak c8Sig (List.replicate 4 "A") (List.replicate 1 "A") = none from by decide,
      show (4:Nat) < 5 from by norm_num, shuffle_replicate]
    exact ih _ _

def c8BadState : SchedState :=
  { participants := ["A", "A", "A", "A", "A"]
    teamQueue := []
    courts := [⟨1, "코트 1", none⟩, ⟨2, "코트 2", none⟩]
    lastTeamSigByPlayer := c8Sig
    priorityCarry := []
    restOnce := []
    playedCount := fun _ => none
    disabledCourtsOnce := [] }

/-- The formation run loops forever on this state: every fuel bound is
exhausted, for every stream of random choices. -/
def neverTerminates (s : SchedState) : Prop :=
  ∀ fuel rnd, handleMakeTeams fuel rnd s = none

theorem c8_formationPhase_none (fuel : Nat) (rnd : List Nat) :
    formationPhase c8Sig fuel rnd [] (List.replicate 5 "A") = none := by
  have h0 : formationPhase c8Sig fuel rnd [] (List.replicate 5 "A") =
      (match genericLoop c8Sig fuel (List.replicate 5 "A") rnd [] with
       | none => none
       | some (ot, pool3, rnd3) =>
         some (([] : List Team), ot, ([] : List Name) ++ pool3, rnd3)) := rfl
  rw [h0, c8_genericLoop_none]

/-- C8 counterexample.  The claim says runFormation terminates for every input
state and every sequence of random choices.  On a (snapshot-loadable) state
whose pool is five copies of "A" with "A|A|A|A" as "A"'s recorded signature,
every sampled group of 4 is an exact repeat, no break-swap can change it, and
the reshuffle leaves the pool unchanged, so the step-3 loop never exits. -/
theorem claim_C8_counterexample : neverTerminates c8BadState := by
  intro fuel rnd
  unfold handleMakeTeams
  rw [if_neg (by decide)]
  have h0 : (eligibleParticipants c8BadState).filter
      (fun p => decide (p ∉ eligiblePriorityCarry c8BadState)) = List.replicate 5 "A" := by
    decide
  have h1 : eligiblePriorityCarry c8BadState = [] := by decide
  have h2 : c8BadState.lastTeamSigByPlayer = c8Sig := rfl
  rw [h0, h1, h2, c8_formationPhase_none]

theorem exists_four_of_length {α : Type} {l : List α} (h : l.length = 4) :
    ∃ a b c d, l = [a, b, c, d] := by
  rcases l with _ | ⟨a, _ | ⟨b, _ | ⟨c, _ | ⟨d, _ | ⟨e, l⟩⟩⟩⟩⟩
  all_goals try (simp only [List.length_cons, List.length_nil] at h; omega)
  exact ⟨a, b, c, d, rfl⟩

theorem sig_length_four (a b c d : Name) :
    (teamSignature [a, b, c, d]).length =
      a.length + b.length + c.length + d.length + 3 := by
  have hlen4 : (List.insertionSort nameLe [a, b, c, d]).length = 4 :=
    (List.perm_insertionSort nameLe [a, b, c, d]).length_eq
  obtain ⟨p, q, r, s, hs⟩ := exists_four_of_length hlen4
  have hsig : teamSignature [a, b, c, d] = p ++ "|" ++ q ++ "|" ++ r ++ "|" ++ s := by
    unfold teamSignature
    rw [hs]
    rfl
  have hperm : ([p, q, r, s] : List String).Perm [a, b, c, d] := by
    rw [← hs]
    exact List.perm_insertionSort nameLe [a, b, c, d]
  have hsum : ([p, q, r, s].map String.length).sum =
      ([a, b, c, d].map String.length).sum := (hperm.map String.length).sum_eq
  have hbar : ("|" : String).length = 1 := rfl
  have hlen : (p ++ "|" ++ q ++ "|" ++ r ++ "|" ++ s).length =
      p.length + q.length + r.length + s.length + 3 := by
    simp only [String.length_append, hbar]
    omega
  rw [hsig, hlen]
  simp only [List.map_cons, List.map_nil, List.sum_cons, List.sum_nil] at hsum
  omega

theorem append_cons_inj {a b : List Char} {x : Char} {ra rb : List Char}
    (h : a ++ x :: ra = b ++ x :: rb) (hlen : a.length = b.length) :
    a = b ∧ ra = rb := by
  obtain ⟨h1, h2⟩ := List.append_inj h hlen
  exact ⟨h1, by simpa using congrArg List.tail h2⟩

theorem join4_inj {a b c d e f g h : String}
    (heq : a ++ "|" ++ b ++ "|" ++ c ++ "|" ++ d = e ++ "|" ++ f ++ "|" ++ g ++ "|" ++ h)
    (ha : a.length = e.length) (hb : b.length = f.length) (hc : c.length = g.length) :
    a = e ∧ b = f ∧ c = g ∧ d = h := by
  have hd := congrArg String.data heq
  have hbar : ("|" : String).data = ['|'] := rfl
  simp only [String.data_append, hbar, List.append_assoc, List.singleton_append] at hd
  obtain ⟨h1, h2⟩ := append_cons_inj hd ha
  obtain ⟨h3, h4⟩ := append_cons_inj h2 hb
  obtain ⟨h5, h6⟩ := append_cons_inj h4 hc
  exact ⟨String.ext h1, String.ext h3, String.ext h5, String.ext h6⟩

theorem isExact_cons_four {m : SigMap} {y0 y1 y2 y3 : Name}
    (h : isExactRepeatTeamWithMap [y0, y1, y2, y3] m = true) :
    m y0 = some (teamSignature [y0, y1, y2, y3]) ∧
    m y1 = some (teamSignature [y0, y1, y2, y3]) ∧
    m y2 = some (teamSignature [y0, y1, y2, y3]) ∧
    m y3 = some (teamSignature [y0, y1, y2, y3]) := by
  simp only [isExactRepeatTeamWithMap, List.all_cons, List.all_nil, Bool.and_true,
    Bool.and_eq_true, beq_iff_eq] at h
  exact ⟨h.2.1, h.2.2.1, h.2.2.2.1, h.2.2.2.2⟩

/-- On a duplicate-free pool, a 4-member exact repeat with a non-empty tail can
always be broken: swapping in the first tail player cannot leave every position
a repeat, because the resulting signature equalities force the tail player to
coincide with a group member, contradicting distinctness. -/
theorem tryBreak_isSome_of_nodup {m : SigMap} {g t : Team}
    (hnd : (g ++ t).Nodup) (hg4 : g.length = 4) (ht : t ≠ [])
    (hrep : isExactRepeatTeamWithMap g m = true) :
    tryBreak m g t ≠ none := by
  intro hnone
  obtain ⟨x0, x1, x2, x3, rfl⟩ := exists_four_of_length hg4
  obtain ⟨t0, ts, rfl⟩ := List.exists_cons_of_ne_nil ht
  have hcell : ∀ gi, gi < 4 →
      isExactRepeatTeamWithMap (([x0, x1, x2, x3]).set gi t0) m = true := by
    intro gi hgi
    unfold tryBreak at hnone
    have h1 := List.findSome?_eq_none_iff.mp hnone gi (by simp [List.mem_range]; omega)
    simp only at h1
    have h2 := List.findSome?_eq_none_iff.mp h1 0 (by simp)
    simp only at h2
    split at h2
    · rename_i hcond
      exact hcond
    · cases h2
  have hG := isExact_cons_four hrep
  have h0 := isExact_cons_four (hcell 0 (by omega))
  have h1 := isExact_cons_four (hcell 1 (by omega))
  have h2 := isExact_cons_four (hcell 2 (by omega))
  have h3 := isExact_cons_four (hcell 3 (by omega))
  have hS0 : teamSignature [t0, x1, x2, x3] = teamSignature [x0, x1, x2, x3] :=
    Option.some.inj (h0.2.1.symm.trans hG.2.1)
  have hS1 : teamSignature [x0, t0, x2, x3] = teamSignature [x0, x1, x2, x3] :=
    Option.some.inj (h1.1.symm.trans hG.1)
  have hS2 : teamSignature [x0, x1, t0, x3] = teamSignature [x0, x1, x2, x3] :=
    Option.some.inj (h2.1.symm.trans hG.1)
  have hS3 : teamSignature [x0, x1, x2, t0] = teamSignature [x0, x1, x2, x3] :=
    Option.some.inj (h3.1.symm.trans hG.1)
  have hL0 : t0.length = x0.length := by
    have := congrArg String.length hS0
    rw [sig_length_four, sig_length_four] at this
    omega
  have hL1 : t0.length = x1.length := by
    have := congrArg String.length hS1
    rw [sig_length_four, sig_length_four] at this
    omega
  have hL2 : t0.length = x2.length := by
    have := congrArg String.length hS2
    rw [sig_length_four, sig_length_four] at this
    omega
  have hL3 : t0.length = x3.length := by
    have := congrArg String.length hS3
    rw [sig_length_four, sig_length_four] at this
    omega
  have hmem1 : ∀ y ∈ [t0, x1, x2, x3], y.length = t0.length := by
    intro y hy
    simp only [List.mem_cons, List.not_mem_nil, or_false] at hy
    rcases hy with rfl | rfl | rfl | rfl
    · rfl
    · omega
    · omega
    · omega
  have hmem2 : ∀ y ∈ [x0, x1, x2, x3], y.length = t0.length := by
    intro y hy
    simp only [List.mem_cons, List.not_mem_nil, or_false] at hy
    rcases hy with rfl | rfl | rfl | rfl
    · omega
    · omega
    · omega
    · omega
  have hlp : (List.insertionSort nameLe [t0, x1, x2, x3]).length = 4 :=
    (List.perm_insertionSort nameLe [t0, x1, x2, x3]).length_eq
  have hlq : (List.insertionSort nameLe [x0, x1, x2, x3]).length = 4 :=
    (List.perm_insertionSort nameLe [x0, x1, x2, x3]).length_eq
  obtain ⟨p0, p1, p2, p3, hp⟩ := exists_four_of_length hlp
  obtain ⟨q0, q1, q2, q3, hq⟩ := exists_four_of_length hlq
  have hps : ([p0, p1, p2, p3] : List String).Perm [t0, x1, x2, x3] := by
    rw [← hp]
    exact List.perm_insertionSort nameLe [t0, x1, x2, x3]
  have hqs : ([q0, q1, q2, q3] : List String).Perm [x0, x1, x2, x3] := by
    rw [← hq]
    exact List.perm_insertionSort nameLe [x0, x1, x2, x3]
  have e1 : teamSignature [t0, x1, x2, x3] = p0 ++ "|" ++ p1 ++ "|" ++ p2 ++ "|" ++ p3 := by
    unfold teamSignature
    rw [hp]
    rfl
  have e2 : teamSignature [x0, x1, x2, x3] = q0 ++ "|" ++ q1 ++ "|" ++ q2 ++ "|" ++ q3 := by
    unfold teamSignature
    rw [hq]
    rfl
  have hsig12 : p0 ++ "|" ++ p1 ++ "|" ++ p2 ++ "|" ++ p3
      = q0 ++ "|" ++ q1 ++ "|" ++ q2 ++ "|" ++ q3 := by
    rw [← e1, ← e2]
    exact hS0
  have hp0 : p0.length = t0.length := hmem1 p0 (hps.mem_iff.mp (by simp))
  have hp1 : p1.length = t0.length := hmem1 p1 (hps.mem_iff.mp (by simp))
  have hp2 : p2.length = t0.length := hmem1 p2 (hps.mem_iff.mp (by simp))
  have hq0 : q0.length = t0.length := hmem2 q0 (hqs.mem_iff.mp (by simp))
  have hq1 : q1.length = t0.length := hmem2 q1 (hqs.mem_iff.mp (by simp))
  have hq2 : q2.length = t0.length := hmem2 q2 (hqs.mem_iff.mp (by simp))
  obtain ⟨ee0, ee1, ee2, ee3⟩ := join4_inj hsig12 (by omega) (by omega) (by omega)
  have hlists : ([p0, p1, p2, p3] : List String) = [q0, q1, q2, q3] := by
    rw [ee0, ee1, ee2, ee3]
  have hmulti : (↑[t0, x1, x2, x3] : Multiset Name) = ↑[x0, x1, x2, x3] := by
    have m1 : (↑[t0, x1, x2, x3] : Multiset Name) = ↑[p0, p1, p2, p3] :=
      Multiset.coe_eq_coe.mpr hps.symm
    have m2 : (↑[q0, q1, q2, q3] : Multiset Name) = ↑[x0, x1, x2, x3] :=
      Multiset.coe_eq_coe.mpr hqs
    rw [m1, hlists, m2]
  have ht0x0 : t0 = x0 := by
    have hc : t0 ::ₘ (↑[x1, x2, x3] : Multiset Name) = x0 ::ₘ ↑[x1, x2, x3] := by
      rw [Multiset.cons_coe, Multiset.cons_coe]
      exact hmulti
    exact (Multiset.cons_inj_left _).mp hc
  subst ht0x0
  have hdisj := (List.nodup_append.mp hnd).2.2
  exact hdisj (a := t0) (by simp) (by simp)

/-- On a duplicate-free pool the step-3 loop always finishes within
pool-length iterations: every iteration seats 4 players, since by
tryBreak_isSome_of_nodup the reshuffle-and-retry branch is unreachable. -/
theorem genericLoop_isSome (m : SigMap) :
    ∀ (fuel : Nat) (pool : List Name) (rnd : List Nat) (acc : List Team),
      pool.Nodup → pool.length < fuel →
      (genericLoop m fuel pool rnd acc).isSome = true := by
  intro fuel pool rnd acc
  induction fuel, pool, rnd, acc using genericLoop.induct m with
  | case1 pool rnd acc hge =>
    intro _ hlt
    omega
  | case2 pool rnd acc hge fuel' picked rest rnd' hsam hrep g t htb ih =>
    intro hnd hlt
    rw [genericLoop.eq_def]
    simp only [hge, if_pos, hsam, hrep, if_true, htb]
    have hsp : (picked ++ rest).Perm pool := by
      have := sample_perm 4 pool rnd
      rw [hsam] at this
      exact this
    have hpickedlen : picked.length = 4 := by
      have := sample_length 4 pool rnd
      rw [hsam] at this
      simpa [Nat.min_eq_left hge] using this
    have hlens : picked.length + rest.length = pool.length := by
      have := hsp.length_eq
      simpa using this
    have hndpr : (picked ++ rest).Nodup := hsp.symm.nodup hnd
    have hndgt : (g ++ t).Nodup := (tryBreak_perm htb).symm.nodup hndpr
    have htlen : t.length = rest.length := (tryBreak_lengths htb).2
    exact ih (List.Nodup.of_append_right hndgt) (by omega)
  | case3 pool rnd acc hge fuel' picked rest rnd' hsam hrep htb hgt4 pool' rnd'' hshuf ih =>
    intro hnd hlt
    have hsp : (picked ++ rest).Perm pool := by
      have := sample_perm 4 pool rnd
      rw [hsam] at this
      exact this
    have hpickedlen : picked.length = 4 := by
      have := sample_length 4 pool rnd
      rw [hsam] at this
      simpa [Nat.min_eq_left hge] using this
    have hlens : picked.length + rest.length = pool.length := by
      have := hsp.length_eq
      simpa using this
    have hndpr : (picked ++ rest).Nodup := hsp.symm.nodup hnd
    have hrest : rest ≠ [] := by
      intro hre
      rw [hre] at hlens
      simp at hlens
      omega
    exact absurd htb (tryBreak_isSome_of_nodup hndpr hpickedlen hrest hrep)
  | case4 pool rnd acc hge fuel' picked rest rnd' hsam hrep htb hnle ih =>
    intro hnd hlt
    rw [genericLoop.eq_def]
    simp only [hge, if_pos, hsam, hrep, if_true, htb, hnle, if_neg, if_false]
    have hsp : (picked ++ rest).Perm pool := by
      have := sample_perm 4 pool rnd
      rw [hsam] at this
      exact this
    have hpickedlen : picked.length = 4 := by
      have := sample_length 4 pool rnd
      rw [hsam] at this
      simpa [Nat.min_eq_left hge] using this
    have hlens : picked.length + rest.length = pool.length := by
      have := hsp.length_eq
      simpa using this
    have hndpr : (picked ++ rest).Nodup := hsp.symm.nodup hnd
    exact ih (List.Nodup.of_append_right hndpr) (by omega)
  | case5 pool rnd acc hge fuel' picked rest rnd' hsam hnrep ih =>
    intro hnd hlt
    rw [genericLoop.eq_def]
    simp only [hge, if_pos, hsam, hnrep, if_false, Bool.false_eq_true]
    have hsp : (picked ++ rest).Perm pool := by
      have := sample_perm 4 pool rnd
      rw [hsam] at this
      exact this
    have hpickedlen : picked.length = 4 := by
      have := sample_length 4 pool rnd
      rw [hsam] at this
      simpa [Nat.min_eq_left hge] using this
    have hlens : picked.length + rest.length = pool.length := by
      have := hsp.length_eq
      simpa using this
    have hndpr : (picked ++ rest).Nodup := hsp.symm.nodup hnd
    exact ih (List.Nodup.of_append_right hndpr) (by omega)
  | case6 fuel pool rnd acc hlt =>
    intro _ _
    rw [genericLoop.eq_def]
    simp [hlt]

theorem formationPhase_isSome (m : SigMap) (fuel : Nat) (rnd : List Nat)
    (eligPC others : List Name)
    (hnd : (eligPC ++ others).Nodup)
    (hfuel : eligPC.length + others.length < fuel) :
    (formationPhase m fuel rnd eligPC others).isSome = true := by
  obtain ⟨hperm1, -, hlen1⟩ := priorityLoop_spec m eligPC others
  set r1 := priorityLoop m eligPC others with hr1
  obtain ⟨hperm2, -⟩ := priorityTopUp_spec m r1.1 r1.2.1 r1.2.2 rnd hlen1
  set r2 := priorityTopUp m r1.1 r1.2.1 r1.2.2 rnd with hr2
  have h0 : formationPhase m fuel rnd eligPC others =
      (match genericLoop m fuel r2.2.2.1 r2.2.2.2 [] with
       | none => none
       | some (ot, pool3, rnd3) => some (r2.1, ot, r2.2.1 ++ pool3, rnd3)) := rfl
  have hpermT : (r2.1.flatten ++ r2.2.1 ++ r2.2.2.1).Perm (eligPC ++ others) := by
    refine hperm2.trans ?_
    exact hperm1
  have hndT : (r2.1.flatten ++ r2.2.1 ++ r2.2.2.1).Nodup := hpermT.symm.nodup hnd
  have hndpool : r2.2.2.1.Nodup :=
    List.Nodup.of_append_right hndT
  have hlenT : r2.1.flatten.length + r2.2.1.length + r2.2.2.1.length =
      eligPC.length + others.length := by
    have := hpermT.length_eq
    simp only [List.length_append] at this
    omega
  have hg := genericLoop_isSome m fuel r2.2.2.1 r2.2.2.2 [] hndpool (by omega)
  obtain ⟨res, hres⟩ := Option.isSome_iff_exists.mp hg
  obtain ⟨ot, pool3, rnd3⟩ := res
  rw [h0, hres]
  rfl

/-- C8 amended.  The termination claim as stated is refuted by
claim_C8_counterexample; it does hold for every state whose waiting pool and
priority carry-over are duplicate-free: the formation run finishes (the fuelled
embedding returns a result) for every choice stream once the fuel exceeds the
number of players, because on duplicate-free pools the no-break reshuffle
branch of the step-3 loop is unreachable and each iteration consumes 4
players. -/
theorem claim_C8_termination (fuel : Nat) (rnd : List Nat) (s : SchedState)
    (hndP : s.participants.Nodup) (hndC : s.priorityCarry.Nodup)
    (hfuel : s.participants.length + s.priorityCarry.length < fuel) :
    (handleMakeTeams fuel rnd s).isSome = true := by
  unfold handleMakeTeams
  by_cases hlt : (eligibleParticipants s).length + (eligiblePriorityCarry s).length < 4
  · simp [hlt]
  · simp only [hlt, if_false]
    have hnd : (eligiblePriorityCarry s ++
        (eligibleParticipants s).filter (fun p => decide (p ∉ eligiblePriorityCarry s))).Nodup := by
      rw [List.nodup_append]
      refine ⟨hndC.filter _, (hndP.filter _).filter _, ?_⟩
      intro p hp hpo
      have := (List.mem_filter.mp hpo).2
      simp only [decide_eq_true_eq] at this
      exact this hp
    have hfuel2 : (eligiblePriorityCarry s).length +
        ((eligibleParticipants s).filter
          (fun p => decide (p ∉ eligiblePriorityCarry s))).length < fuel := by
      have h1 : (eligiblePriorityCarry s).length ≤ s.priorityCarry.length :=
        List.length_filter_le _ _
      have h2 : ((eligibleParticipants s).filter
          (fun p => decide (p ∉ eligiblePriorityCarry s))).length ≤
          (eligibleParticipants s).length := List.length_filter_le _ _
      have h3 : (eligibleParticipants s).length ≤ s.participants.length :=
        List.length_filter_le _ _
      omega
    have hg := formationPhase_isSome s.lastTeamSigByPlayer fuel rnd
      (eligiblePriorityCarry s)
      ((eligibleParticipants s).filter (fun p => decide (p ∉ eligiblePriorityCarry s)))
      hnd hfuel2
    obtain ⟨res, hres⟩ := Option.isSome_iff_exists.mp hg
    obtain ⟨pt, ot, rest, rndF⟩ := res
    rw [hres]
    rfl

def c8GoodState : SchedState :=
  { participants := ["Ann", "Bo", "Cy", "Dee", "Ed"]
    teamQueue := []
    courts := [⟨1, "코트 1", none⟩, ⟨2, "코트 2", none⟩]
    lastTeamSigByPlayer := fun _ => none
    priorityCarry := ["Flo"]
    restOnce := []
    playedCount := fun _ => none
    disabledCourtsOnce := [] }

/-- Witness for C8: the amended termination theorem applied at a concrete
duplicate-free six-player state. -/
theorem claim_C8_witness :
    c8GoodState.participants.Nodup ∧ c8GoodState.priorityCarry.Nodup ∧
    c8GoodState.participants.length + c8GoodState.priorityCarry.length < 7 ∧
    (handleMakeTeams 7 [0, 1, 2, 3, 4, 5, 6, 7] c8GoodState).isSome = true :=
  ⟨by decide, by decide, by decide,
    claim_C8_termination 7 [0, 1, 2, 3, 4, 5, 6, 7] c8GoodState
      (by decide) (by decide) (by decide)⟩
